import Mathlib

/-!
# Verification of the Secure_chat relay server

A shallow embedding of `src/Secure_chat-main/app.py` (the socket-event
logic of the chat relay: participant registry, presence notification,
envelope relay, encrypted audit log) together with the offline log
decryptor `src/Secure_chat-main/scripts/decrypt_logs.py`.

Python dictionaries are modelled as insertion-ordered association lists,
byte strings as `List Nat` with entries below 256, and the external
crypto library (`cryptography.hazmat...AESGCM`) as an authenticated
stream cipher of GCM's shape (plaintext XOR keystream, followed by a
16-byte authentication tag recomputed and compared on decryption), with
the keystream and tag functions left universally quantified.
`hashlib.sha256` and Python's `base64.b64decode`/`b64encode` are
implemented concretely and checked against standard test vectors.
-/

namespace SecureChat

/-! ## Bytes and small helpers -/

/-- `str.encode()` on ASCII text: the code points of the characters.
The server only ever encodes JSON produced with `ensure_ascii`, so this
code-point map coincides with UTF-8 there. -/
def strBytes (s : String) : List Nat := s.data.map Char.toNat

/-- `bytes.decode()` on ASCII byte strings (code points below 128). -/
def bytesStr (bs : List Nat) : String := String.mk (bs.map Char.ofNat)

/-- Python `str.strip()`: leading and trailing whitespace removed
(modelled for ASCII whitespace; `String.trim` itself does not reduce in
the kernel, so the list-level equivalent is used). -/
def pyStrip (s : String) : String :=
  String.mk (((s.data.dropWhile Char.isWhitespace).reverse.dropWhile
    Char.isWhitespace).reverse)

/-- Python `str.lower()` (ASCII case mapping, as `Char.toLower`). -/
def pyLower (s : String) : String := String.mk (s.data.map Char.toLower)

/-- Code-point lexicographic `<` on character lists: Python's string
comparison.  Agrees with the `List Char` order (`listLtChars_iff`). -/
def listLtChars : List Char → List Char → Bool
  | [], [] => false
  | [], _ :: _ => true
  | _ :: _, [] => false
  | c :: cs, d :: ds =>
      if c < d then true else if d < c then false else listLtChars cs ds

/-- Boolean string `≤` (agrees with `String` order, `strLeB_iff`). -/
def strLeB (a b : String) : Bool := !(listLtChars b.data a.data)

/-- Truncation to a 32-bit machine word. -/
def w32 (x : Nat) : Nat := x % 4294967296

/-! ## SHA-256 (`hashlib.sha256`) -/

/-- Right rotation of a 32-bit word. -/
def rotr (n x : Nat) : Nat := x / 2 ^ n + x % 2 ^ n * 2 ^ (32 - n)

def shaCh (x y z : Nat) : Nat := (x &&& y) ^^^ ((x ^^^ 4294967295) &&& z)

def shaMaj (x y z : Nat) : Nat := (x &&& y) ^^^ (x &&& z) ^^^ (y &&& z)

def bigSigma0 (x : Nat) : Nat := rotr 2 x ^^^ rotr 13 x ^^^ rotr 22 x

def bigSigma1 (x : Nat) : Nat := rotr 6 x ^^^ rotr 11 x ^^^ rotr 25 x

def smallSigma0 (x : Nat) : Nat := rotr 7 x ^^^ rotr 18 x ^^^ (x >>> 3)

def smallSigma1 (x : Nat) : Nat := rotr 17 x ^^^ rotr 19 x ^^^ (x >>> 10)

/-- The 64 SHA-256 round constants. -/
def shaK : List Nat :=
  [1116352408, 1899447441, 3049323471, 3921009573,
   961987163, 1508970993, 2453635748, 2870763221,
   3624381080, 310598401, 607225278, 1426881987,
   1925078388, 2162078206, 2614888103, 3248222580,
   3835390401, 4022224774, 264347078, 604807628,
   770255983, 1249150122, 1555081692, 1996064986,
   2554220882, 2821834349, 2952996808, 3210313671,
   3336571891, 3584528711, 113926993, 338241895,
   666307205, 773529912, 1294757372, 1396182291,
   1695183700, 1986661051, 2177026350, 2456956037,
   2730485921, 2820302411, 3259730800, 3345764771,
   3516065817, 3600352804, 4094571909, 275423344,
   430227734, 506948616, 659060556, 883997877,
   958139571, 1322822218, 1537002063, 1747873779,
   1955562222, 2024104815, 2227730452, 2361852424,
   2428436474, 2756734187, 3204031479, 3329325298]

/-- The SHA-256 initial hash value. -/
def shaH0 : List Nat :=
  [1779033703, 3144134277, 1013904242, 2773480762,
   1359893119, 2600822924, 528734635, 1541459225]

/-- Big-endian 4-byte rendering of a 32-bit word. -/
def beBytes4 (n : Nat) : List Nat :=
  [n / 16777216 % 256, n / 65536 % 256, n / 256 % 256, n % 256]

/-- Big-endian 8-byte rendering of a 64-bit length field. -/
def beBytes8 (n : Nat) : List Nat :=
  [n / 2 ^ 56 % 256, n / 2 ^ 48 % 256, n / 2 ^ 40 % 256, n / 2 ^ 32 % 256,
   n / 2 ^ 24 % 256, n / 2 ^ 16 % 256, n / 2 ^ 8 % 256, n % 256]

/-- SHA-256 padding: a `0x80` byte, zeros to 56 mod 64, then the
bit length as a big-endian 64-bit integer. -/
def shaPad (msg : List Nat) : List Nat :=
  msg ++ [128] ++ List.replicate ((119 - msg.length % 64) % 64) 0
      ++ beBytes8 (msg.length * 8)

/-- Big-endian 32-bit words from a byte sequence. -/
def bytesToWords : List Nat → List Nat
  | b0 :: b1 :: b2 :: b3 :: rest =>
      (b0 * 16777216 + b1 * 65536 + b2 * 256 + b3) :: bytesToWords rest
  | _ => []

/-- Extend the 16 block words to the 64-entry message schedule. -/
def buildSched (w : List Nat) : List Nat :=
  (List.range 48).foldl
    (fun acc _ =>
      acc ++ [w32 (smallSigma1 (acc.getD (acc.length - 2) 0)
        + acc.getD (acc.length - 7) 0
        + smallSigma0 (acc.getD (acc.length - 15) 0)
        + acc.getD (acc.length - 16) 0)])
    w

/-- One SHA-256 compression round: state is the eight working words. -/
def shaRound (st : List Nat) (kw : Nat × Nat) : List Nat :=
  match st with
  | [a, b, c, d, e, f, g, h] =>
      let t1 := w32 (h + bigSigma1 e + shaCh e f g + kw.1 + kw.2)
      let t2 := w32 (bigSigma0 a + shaMaj a b c)
      [w32 (t1 + t2), a, b, c, w32 (d + t1), e, f, g]
  | other => other

/-- Compress one 64-byte block into the running hash value. -/
def shaCompress (h : List Nat) (block : List Nat) : List Nat :=
  let w := buildSched (bytesToWords block)
  let fin := (shaK.zip w).foldl shaRound h
  (h.zip fin).map (fun p => w32 (p.1 + p.2))

/-- Fold the compression function over 64-byte blocks (fuel-driven so the
definition reduces in the kernel; the fuel is always sufficient). -/
def shaLoop : Nat → List Nat → List Nat → List Nat
  | 0, h, _ => h
  | fuel + 1, h, bytes =>
      if bytes.isEmpty then h
      else shaLoop fuel (shaCompress h (bytes.take 64)) (bytes.drop 64)

/-- `hashlib.sha256(msg).digest()`: 32 bytes. -/
def sha256 (msg : List Nat) : List Nat :=
  let padded := shaPad msg
  (shaLoop (padded.length + 1) shaH0 padded).foldr
    (fun w acc => beBytes4 w ++ acc) []

def hexDigitChar (n : Nat) : Char :=
  match n with
  | 0 => '0' | 1 => '1' | 2 => '2' | 3 => '3' | 4 => '4'
  | 5 => '5' | 6 => '6' | 7 => '7' | 8 => '8' | 9 => '9'
  | 10 => 'a' | 11 => 'b' | 12 => 'c' | 13 => 'd' | 14 => 'e'
  | _ => 'f'

/-- `.hexdigest()` rendering of a byte string: lowercase hex. -/
def toHex (bytes : List Nat) : String :=
  String.mk (bytes.foldr (fun b acc => hexDigitChar (b / 16) :: hexDigitChar (b % 16) :: acc) [])

/-! ## Base64 (`base64.b64decode` with `validate=False`, `base64.b64encode`)

The decoder follows CPython's `binascii.a2b_base64` in non-strict mode:
characters outside the alphabet are skipped; a data character resets the
padding count; a `=` terminates decoding successfully once the current
quad holds at least two data characters and data plus padding reach
four; a leftover quad of one, two or three data characters at the end of
input is an error (`binascii.Error`, surfaced as the spec's
`DecodeError`). -/

/-- Value of a base64 alphabet character. -/
def b64digit (c : Char) : Option Nat :=
  if 'A' ≤ c ∧ c ≤ 'Z' then some (c.toNat - 65)
  else if 'a' ≤ c ∧ c ≤ 'z' then some (c.toNat - 97 + 26)
  else if '0' ≤ c ∧ c ≤ '9' then some (c.toNat - 48 + 52)
  else if c = '+' then some 62
  else if c = '/' then some 63
  else none

/-- The three bytes encoded by a full quad of sextets. -/
def emit3 (v0 v1 v2 v3 : Nat) : List Nat :=
  [v0 * 4 + v1 / 16, v1 % 16 * 16 + v2 / 4, v2 % 4 * 64 + v3]

/-- The bytes encoded by a final partial quad (two or three sextets). -/
def emitPartial : List Nat → List Nat
  | [v0, v1] => [v0 * 4 + v1 / 16]
  | [v0, v1, v2] => [v0 * 4 + v1 / 16, v1 % 16 * 16 + v2 / 4]
  | _ => []

/-- The character loop of `binascii.a2b_base64` (non-strict):
`quad` holds the pending data-character values, `pads` the count of
padding characters seen since the last data character. -/
def b64loop : List Char → List Nat → Nat → List Nat → Option (List Nat)
  | [], quad, _, out => if quad.isEmpty then some out else none
  | c :: rest, quad, pads, out =>
      if c = '=' then
        if 2 ≤ quad.length ∧ 4 ≤ quad.length + (pads + 1) then
          some (out ++ emitPartial quad)
        else b64loop rest quad (pads + 1) out
      else
        match b64digit c with
        | none => b64loop rest quad pads out
        | some v =>
            match quad with
            | [v0, v1, v2] => b64loop rest [] 0 (out ++ emit3 v0 v1 v2 v)
            | _ => b64loop rest (quad ++ [v]) 0 out

/-- `base64.b64decode(s)` (default `validate=False`); `none` models the
raised `binascii.Error`. -/
def b64decode (s : String) : Option (List Nat) := b64loop s.data [] 0 []

/-- The base64 alphabet character for a sextet value. -/
def b64char (v : Nat) : Char :=
  if v < 26 then Char.ofNat (65 + v)
  else if v < 52 then Char.ofNat (97 + (v - 26))
  else if v < 62 then Char.ofNat (48 + (v - 52))
  else if v = 62 then '+'
  else '/'

/-- The encoding loop of `base64.b64encode`: three bytes per quad, with
`=`-padded final groups. -/
def b64encodeList : List Nat → List Char
  | [] => []
  | [b0] => [b64char (b0 / 4), b64char (b0 % 4 * 16), '=', '=']
  | [b0, b1] =>
      [b64char (b0 / 4), b64char (b0 % 4 * 16 + b1 / 16), b64char (b1 % 16 * 4), '=']
  | b0 :: b1 :: b2 :: rest =>
      b64char (b0 / 4) :: b64char (b0 % 4 * 16 + b1 / 16)
        :: b64char (b1 % 16 * 4 + b2 / 64) :: b64char (b2 % 64)
        :: b64encodeList rest

/-- `base64.b64encode(bs).decode()`. -/
def b64encode (bs : List Nat) : String := String.mk (b64encodeList bs)

/-! ## Identity Fingerprinter (`compute_fingerprint`, app.py lines 31-34) -/

/-- Successive two-character groups of a hex digest
(`digest[i : i + 2] for i in range(0, len(digest), 2)`). -/
def chunkPairs : List Char → List String
  | c1 :: c2 :: rest => String.mk [c1, c2] :: chunkPairs rest
  | [c] => [String.mk [c]]
  | [] => []

/-- `compute_fingerprint(public_key_b64)`: base64-decode, SHA-256, render
the lowercase hex digest in colon-separated two-character groups.
`none` models the propagated `binascii.Error` (the spec's `DecodeError`). -/
def compute_fingerprint (public_key_b64 : String) : Option String :=
  (b64decode public_key_b64).map fun der =>
    let digest := toHex (sha256 der)
    String.intercalate (":") (chunkPairs digest.data)

/-! ## Python dictionaries as insertion-ordered association lists -/

/-- `d.get(k)` / `d[k]`. -/
def alookup (k : String) : List (String × α) → Option α
  | [] => none
  | (k', v) :: rest => if k' = k then some v else alookup k rest

/-- `d[k] = v`: replace in place when the key exists (Python dicts keep
the original position), append otherwise. -/
def aset (k : String) (v : α) (l : List (String × α)) : List (String × α) :=
  if l.any (fun p => p.1 = k) then l.map (fun p => if p.1 = k then (k, v) else p)
  else l ++ [(k, v)]

/-- `d.pop(k, None)`'s effect on the dictionary. -/
def aerase (k : String) (l : List (String × α)) : List (String × α) :=
  l.filter (fun p => p.1 ≠ k)

/-- `list(d.keys())`. -/
def akeys (l : List (String × α)) : List String := l.map Prod.fst

/-- Stable insertion: `x` goes after every element `y` with `le y x`,
matching Python's stable `sorted`. -/
def insertSorted (le : α → α → Bool) (x : α) : List α → List α
  | [] => [x]
  | y :: ys => if le y x then y :: insertSorted le x ys else x :: y :: ys

/-- Python's stable `sorted` with a boolean comparison. -/
def stableSortBy (le : α → α → Bool) (l : List α) : List α :=
  l.foldl (fun acc x => insertSorted le x acc) []

/-- `sorted(strings)`: lexicographic by code point, as in Python. -/
def sortStrings (l : List String) : List String :=
  stableSortBy strLeB l

/-! ## Data model (app.py lines 16-18 and handler-local values) -/

/-- A value of the `participants` dict: one registered identity. -/
structure PartInfo where
  public_key : String
  fingerprint : String
  sid : String
  joined_at : Nat
deriving DecidableEq

/-- One element of `participant_snapshot()`. -/
structure SnapshotEntry where
  username : String
  fingerprint : String
  public_key : String
deriving DecidableEq

/-- A stored audit-log record: base64 text of nonce and ciphertext. -/
structure LogEntry where
  nonce : String
  ciphertext : String
deriving DecidableEq

/-- The module-level mutable state: `participants`, `sessions`, `logs`. -/
structure ServerState where
  participants : List (String × PartInfo)
  sessions : List (String × String)
  logs : List LogEntry
deriving DecidableEq

def emptyState : ServerState := ⟨[], [], []⟩

/-- The outbound `send_message` payload dict; `stored_at` is `none` when
the key is absent (it is only ever set on the audit-log copy). -/
structure Payload where
  «from» : String
  ciphertext : Option String
  iv : Option String
  timestamp : Option String
  envelopes : List (String × String)
  stored_at : Option String
deriving DecidableEq

/-- Who a Socket.IO emission reaches: `emit(...)` inside a handler goes
only to the calling connection; `socketio.emit(...)` goes to all;
`include_self=False` excludes the acting connection. -/
inductive Recipients where
  | all : Recipients
  | allExcept (sid : String) : Recipients
  | only (sid : String) : Recipients
deriving DecidableEq

/-- Whether an emission with the given recipients reaches connection `sid`. -/
def deliversTo : Recipients → String → Bool
  | .all, _ => true
  | .allExcept s, sid => sid ≠ s
  | .only s, sid => sid = s

/-- Every emission the handlers perform, in order. -/
inductive Event where
  | register_error (r : Recipients) (message : String)
  | register_success (r : Recipients) (username fingerprint : String)
      (parts : List SnapshotEntry)
  | user_joined (r : Recipients) (username fingerprint : String)
  | user_left (r : Recipients) (username fingerprint : String)
  | participants (r : Recipients) (parts : List SnapshotEntry)
  | delivery_error (r : Recipients) (message : String)
  | receive_message (r : Recipients) (payload : Payload)
  | public_key (r : Recipients) (username public_key : Option String)
      (fingerprint : Option (Option String))
deriving DecidableEq

/-- How a handler call ends: normally, by an early error emission, or by
an uncaught exception (`binascii.Error` from `compute_fingerprint`),
which the Socket.IO framework swallows without crashing the process. -/
inductive HandlerOutcome where
  | ok : HandlerOutcome
  | rejected (message : String) : HandlerOutcome
  | raised : HandlerOutcome
deriving DecidableEq

structure HandlerResult where
  state : ServerState
  events : List Event
  outcome : HandlerOutcome
deriving DecidableEq

/-- Nondeterministic inputs drawn by a handler call: `time.time()`,
`time.strftime(...)`, `os.urandom(12)`. -/
structure Env where
  now : Nat
  now_str : String
  nonce : List Nat

/-! ## Presence (app.py lines 37-49) -/

/-- `participant_snapshot()`: entries sorted by case-insensitive
username (`key=lambda item: item[0].lower()`). -/
def participant_snapshot (parts : List (String × PartInfo)) : List SnapshotEntry :=
  (stableSortBy (fun a b => strLeB (pyLower a.1) (pyLower b.1)) parts).map
    (fun p => ⟨p.1, p.2.fingerprint, p.2.public_key⟩)

/-- `broadcast_participants()`: one `participants` emission to all. -/
def broadcast_participants (parts : List (String × PartInfo)) : Event :=
  .participants .all (participant_snapshot parts)

/-! ## Registry removal (app.py lines 70-84) -/

/-- `remove_participant(sid)`: pop the session binding, then the
identity record, then emit `user_left` (excluding the acting
connection) and the refreshed snapshot. -/
def remove_participant (st : ServerState) (sid : String) : ServerState × List Event :=
  match alookup sid st.sessions with
  | none => (st, [])
  | some username =>
      if username = "" then ({ st with sessions := aerase sid st.sessions }, [])
      else
        match alookup username st.participants with
        | none => ({ st with sessions := aerase sid st.sessions }, [])
        | some info =>
            let st2 : ServerState :=
              { st with participants := aerase username st.participants,
                        sessions := aerase sid st.sessions }
            (st2, [.user_left (.allExcept sid) username info.fingerprint,
                   broadcast_participants st2.participants])

/-! ## Registration (app.py lines 112-154) -/

structure RegisterData where
  username : Option String
  public_key : Option String
deriving DecidableEq

/-- `handle_register(data)` for a call from connection `sid`. -/
def handle_register (env : Env) (st : ServerState) (sid : String)
    (data : RegisterData) : HandlerResult :=
  let username := pyStrip (data.username.getD "")
  if username = "" ∨ data.public_key = none ∨ data.public_key = some "" then
    ⟨st, [.register_error (.only sid) "Username and public key are required."],
     .rejected "Username and public key are required."⟩
  else if username.length < 2 then
    ⟨st, [.register_error (.only sid) "Username must be at least 2 characters."],
     .rejected "Username must be at least 2 characters."⟩
  else if (match alookup username st.participants with
           | some existing => decide (existing.sid ≠ sid)
           | none => false) then
    ⟨st, [.register_error (.only sid) "That username is already in use."],
     .rejected "That username is already in use."⟩
  else
    match compute_fingerprint (data.public_key.getD "") with
    | none => ⟨st, [], .raised⟩
    | some fingerprint =>
        let removed := remove_participant st sid
        let st2 : ServerState :=
          { removed.1 with
            participants := aset username
              ⟨data.public_key.getD "", fingerprint, sid, env.now⟩
              removed.1.participants,
            sessions := aset sid username removed.1.sessions }
        ⟨st2,
         removed.2 ++
           [.register_success (.only sid) username fingerprint
              (participant_snapshot st2.participants),
            .user_joined (.allExcept sid) username fingerprint,
            broadcast_participants st2.participants],
         .ok⟩

/-! ## Canonical JSON (`json.dumps(..., separators=(",", ":"))`)

`json.dumps` with default `ensure_ascii=True` escapes `"` and `\`,
uses the short escapes for the common control characters, and renders
every other character outside `0x20`-`0x7E` as lowercase `\uXXXX`
(a surrogate pair above `0xFFFF`), so its output is pure ASCII. -/

/-- The four lowercase hex digits of `n % 0x10000`. -/
def hex4 (n : Nat) : List Char :=
  [hexDigitChar (n / 4096 % 16), hexDigitChar (n / 256 % 16),
   hexDigitChar (n / 16 % 16), hexDigitChar (n % 16)]

/-- `\uXXXX` escape, as a surrogate pair above the BMP. -/
def uEscape (n : Nat) : List Char :=
  if n < 65536 then '\\' :: 'u' :: hex4 n
  else
    '\\' :: 'u' :: hex4 (55296 + (n - 65536) / 1024)
      ++ '\\' :: 'u' :: hex4 (56320 + (n - 65536) % 1024)

def jsonEscapeChar (c : Char) : List Char :=
  if c = '"' then ['\\', '"']
  else if c = '\\' then ['\\', '\\']
  else if c = '\n' then ['\\', 'n']
  else if c = '\t' then ['\\', 't']
  else if c = '\r' then ['\\', 'r']
  else if c.toNat = 8 then ['\\', 'b']
  else if c.toNat = 12 then ['\\', 'f']
  else if c.toNat < 32 ∨ 126 < c.toNat then uEscape c.toNat
  else [c]

def escString (s : String) : List Char :=
  s.data.foldr (fun c acc => jsonEscapeChar c ++ acc) []

/-- A JSON string literal. -/
def jsonString (s : String) : List Char := '"' :: (escString s ++ ['"'])

/-- A JSON string or `null`. -/
def jsonOptString : Option String → List Char
  | none => ['n', 'u', 'l', 'l']
  | some s => jsonString s

/-- The comma-separated members of the envelopes object. -/
def jsonEnvItems : List (String × String) → List Char
  | [] => []
  | [(k, v)] => jsonString k ++ ':' :: jsonString v
  | (k, v) :: rest => jsonString k ++ ':' :: jsonString v ++ ',' :: jsonEnvItems rest

def jsonEnvelopes (l : List (String × String)) : List Char :=
  '{' :: (jsonEnvItems l ++ ['}'])

/-- `json.dumps(payload, separators=(",", ":"))`: members in insertion
order; `stored_at` is emitted only when the key is present. -/
def serializePayload (p : Payload) : List Char :=
  ("\x7b\"from\":").data ++ jsonString p.«from»
    ++ (",\"ciphertext\":").data ++ jsonOptString p.ciphertext
    ++ (",\"iv\":").data ++ jsonOptString p.iv
    ++ (",\"timestamp\":").data ++ jsonOptString p.timestamp
    ++ (",\"envelopes\":").data ++ jsonEnvelopes p.envelopes
    ++ (match p.stored_at with
        | none => []
        | some s => (",\"stored_at\":").data ++ jsonString s)
    ++ ['}']

/-! ## `json.loads` on such payloads

The decryption utility parses the stored plaintext back with
`json.loads`; this parser models it on the object shape produced above.
String bodies are parsed with explicit fuel so that every definition is
structurally recursive; callers pass enough fuel for any input. -/

def hexVal (c : Char) : Option Nat :=
  if '0' ≤ c ∧ c ≤ '9' then some (c.toNat - 48)
  else if 'a' ≤ c ∧ c ≤ 'f' then some (c.toNat - 87)
  else if 'A' ≤ c ∧ c ≤ 'F' then some (c.toNat - 55)
  else none

def parseHex4 : List Char → Option (Nat × List Char)
  | c1 :: c2 :: c3 :: c4 :: rest =>
      match hexVal c1, hexVal c2, hexVal c3, hexVal c4 with
      | some v1, some v2, some v3, some v4 =>
          some (v1 * 4096 + v2 * 256 + v3 * 16 + v4, rest)
      | _, _, _, _ => none
  | _ => none

/-- Parse a string body up to its closing quote, undoing JSON escapes
(including surrogate pairs). -/
def parseJStringBody : Nat → List Char → Option (List Char × List Char)
  | 0, _ => none
  | _ + 1, [] => none
  | fuel + 1, c :: rest =>
      if c = '"' then some ([], rest)
      else if c = '\\' then
        match rest with
        | [] => none
        | e :: rest1 =>
            if e = 'u' then
              match parseHex4 rest1 with
              | none => none
              | some (n, rest2) =>
                  if 55296 ≤ n ∧ n < 56320 then
                    match rest2 with
                    | '\\' :: 'u' :: rest3 =>
                        match parseHex4 rest3 with
                        | none => none
                        | some (m, rest4) =>
                            if 56320 ≤ m ∧ m < 57344 then
                              (parseJStringBody fuel rest4).map
                                (fun p =>
                                  (Char.ofNat
                                      (65536 + (n - 55296) * 1024 + (m - 56320))
                                    :: p.1, p.2))
                            else none
                    | _ => none
                  else if 56320 ≤ n ∧ n < 57344 then none
                  else
                    (parseJStringBody fuel rest2).map
                      (fun p => (Char.ofNat n :: p.1, p.2))
            else
              match (if e = '"' then some '"'
                     else if e = '\\' then some '\\'
                     else if e = '/' then some '/'
                     else if e = 'n' then some '\n'
                     else if e = 't' then some '\t'
                     else if e = 'r' then some '\r'
                     else if e = 'b' then some (Char.ofNat 8)
                     else if e = 'f' then some (Char.ofNat 12)
                     else none) with
              | none => none
              | some d =>
                  (parseJStringBody fuel rest1).map (fun p => (d :: p.1, p.2))
      else (parseJStringBody fuel rest).map (fun p => (c :: p.1, p.2))

/-- Parse a JSON string literal (self-fueling). -/
def parseJString (input : List Char) : Option (String × List Char) :=
  match input with
  | '"' :: rest =>
      (parseJStringBody (rest.length + 1) rest).map
        (fun p => (String.mk p.1, p.2))
  | _ => none

/-- Parse a JSON string literal or `null`. -/
def parseOptString (input : List Char) : Option (Option String × List Char) :=
  match input with
  | 'n' :: 'u' :: 'l' :: 'l' :: rest => some (none, rest)
  | _ => (parseJString input).map (fun p => (some p.1, p.2))

/-- Expect the given literal characters. -/
def parseLit : List Char → List Char → Option (List Char)
  | [], input => some input
  | _ :: _, [] => none
  | c :: cs, d :: rest => if c = d then parseLit cs rest else none

/-- Parse the members of the envelopes object, consuming the closing
brace; fuel bounds the number of members. -/
def parseEnvItems : Nat → List Char → Option (List (String × String) × List Char)
  | 0, _ => none
  | fuel + 1, input =>
      match parseJString input with
      | none =>
          match input with
          | '}' :: rest => some ([], rest)
          | _ => none
      | some (k, rest1) =>
          match rest1 with
          | ':' :: rest2 =>
              match parseJString rest2 with
              | none => none
              | some (v, rest3) =>
                  match rest3 with
                  | ',' :: rest4 =>
                      (parseEnvItems fuel rest4).map
                        (fun p => ((k, v) :: p.1, p.2))
                  | '}' :: rest4 => some ([(k, v)], rest4)
                  | _ => none
          | _ => none

def parseEnvelopes (input : List Char) : Option (List (String × String) × List Char) :=
  match input with
  | '{' :: rest => parseEnvItems (rest.length + 1) rest
  | _ => none

/-- `json.loads` of a serialized payload object (the shape stored in the
audit log). -/
def parsePayload (s : String) : Option Payload :=
  match parseLit (("\x7b\"from\":").data) s.data with
  | none => none
  | some r0 =>
      match parseJString r0 with
      | none => none
      | some (sender, r1) =>
          match parseLit ((",\"ciphertext\":").data) r1 with
          | none => none
          | some r2 =>
              match parseOptString r2 with
              | none => none
              | some (ct, r3) =>
                  match parseLit ((",\"iv\":").data) r3 with
                  | none => none
                  | some r4 =>
                      match parseOptString r4 with
                      | none => none
                      | some (iv, r5) =>
                          match parseLit ((",\"timestamp\":").data) r5 with
                          | none => none
                          | some r6 =>
                              match parseOptString r6 with
                              | none => none
                              | some (ts, r7) =>
                                  match parseLit ((",\"envelopes\":").data) r7 with
                                  | none => none
                                  | some r8 =>
                                      match parseEnvelopes r8 with
                                      | none => none
                                      | some (env, r9) =>
                                          if r9 = ['}'] then
                                            some ⟨sender, ct, iv, ts, env, none⟩
                                          else
                                              match parseLit ((",\"stored_at\":").data) r9 with
                                              | none => none
                                              | some r10 =>
                                                  match parseJString r10 with
                                                  | none => none
                                                  | some (sa, r11) =>
                                                      if r11 = ['}'] then
                                                        some ⟨sender, ct, iv, ts, env, some sa⟩
                                                      else none

/-! ## The AEAD cipher (`cryptography...AESGCM`)

AES-GCM is external library code; it is modelled by its shape: the
ciphertext is the plaintext XORed with a keystream determined by key
and nonce, followed by a 16-byte authentication tag over the ciphertext;
decryption recomputes the tag, compares, and only then releases the
plaintext (`InvalidTag`, modelled as `none`, otherwise).  The keystream
and tag functions are arbitrary parameters throughout. -/

/-- Keystream generator type: key, nonce and byte count to keystream. -/
abbrev KS := List Nat → List Nat → Nat → List Nat

/-- Tag function type: key, nonce and ciphertext to 16-byte tag. -/
abbrev TAG := List Nat → List Nat → List Nat → List Nat

/-- `AESGCM(key).encrypt(nonce, pt, associated_data=None)`. -/
def aeadEncrypt (ks : KS) (tagf : TAG) (key nonce pt : List Nat) : List Nat :=
  let ct := pt.zipWith (fun a b => a ^^^ b) (ks key nonce pt.length)
  ct ++ tagf key nonce ct

/-- `AESGCM(key).decrypt(nonce, data, associated_data=None)`; `none`
models the raised `InvalidTag`. -/
def aeadDecrypt (ks : KS) (tagf : TAG) (key nonce data : List Nat) :
    Option (List Nat) :=
  if data.length < 16 then none
  else
    let ct := data.take (data.length - 16)
    let tag := data.drop (data.length - 16)
    if tagf key nonce ct = tag then
      some (ct.zipWith (fun a b => a ^^^ b) (ks key nonce ct.length))
    else none

/-! ## Encrypted audit log (app.py lines 52-67) -/

/-- `entry_payload = dict(payload); entry_payload.setdefault("stored_at", ...)`. -/
def entry_payload (now_str : String) (p : Payload) : Payload :=
  { p with stored_at := some (p.stored_at.getD now_str) }

/-- `store_encrypted_log(payload)`: copy, timestamp, serialize, draw a
12-byte nonce, AEAD-encrypt, append base64 text of nonce and ciphertext. -/
def store_encrypted_log (ks : KS) (tagf : TAG) (key : List Nat) (env : Env)
    (logs : List LogEntry) (payload : Payload) : List LogEntry :=
  let ep := entry_payload env.now_str payload
  let serialized := strBytes (String.mk (serializePayload ep))
  let ciphertext := aeadEncrypt ks tagf key env.nonce serialized
  logs ++ [⟨b64encode env.nonce, b64encode ciphertext⟩]

/-- `collect_encrypted_logs()`. -/
def collect_encrypted_logs (st : ServerState) : List LogEntry := st.logs

/-! ## The offline decryptor (`scripts/decrypt_logs.py`) -/

/-- One iteration of `decrypt_entries`: base64-decode nonce and
ciphertext, AEAD-decrypt, `json.loads`. -/
def decrypt_entry (ks : KS) (tagf : TAG) (key : List Nat) (e : LogEntry) :
    Option Payload :=
  match b64decode e.nonce with
  | none => none
  | some nonce =>
      match b64decode e.ciphertext with
      | none => none
      | some ct =>
          match aeadDecrypt ks tagf key nonce ct with
          | none => none
          | some pt => parsePayload (bytesStr pt)

/-- `decrypt_entries(entries, aes)`; any raised exception is `none`. -/
def decrypt_entries (ks : KS) (tagf : TAG) (key : List Nat)
    (entries : List LogEntry) : Option (List Payload) :=
  entries.mapM (decrypt_entry ks tagf key)

/-! ## The relay (app.py lines 157-198) -/

structure SendData where
  «from» : Option String
  ciphertext : Option String
  iv : Option String
  timestamp : Option String
  envelopes : Option (List (String × String))
deriving DecidableEq

/-- `sorted(expected_recipients - actual_recipients)`: the registered
usernames with no envelope, sorted (Python sorts the set it reports;
emptiness of the sorted list and of the set coincide). -/
def missingOf (st : ServerState) (data : SendData) : List String :=
  sortStrings
    ((akeys st.participants).filter
      (fun u => !((data.envelopes.getD []).any (fun e => e.1 = u))))

/-- `handle_send_message(data)` for a call from connection `sid`. -/
def handle_send_message (ks : KS) (tagf : TAG) (key : List Nat) (env : Env)
    (st : ServerState) (sid : String) (data : SendData) : HandlerResult :=
  let sender := data.«from».getD ""
  let envelopes := data.envelopes.getD []
  if sender = "" then
    ⟨st, [.delivery_error (.only sid) "Missing sender username."],
     .rejected "Missing sender username."⟩
  else if (match alookup sender st.participants with
           | some member => decide (member.sid ≠ sid)
           | none => true) then
    ⟨st, [.delivery_error (.only sid) "Sender not registered."],
     .rejected "Sender not registered."⟩
  else
    let missing := missingOf st data
    if missing.isEmpty = false then
      ⟨st, [.delivery_error (.only sid)
              ("Missing envelopes for: " ++ String.intercalate (", ") missing)],
       .rejected ("Missing envelopes for: " ++ String.intercalate (", ") missing)⟩
    else
      let payload : Payload :=
        ⟨sender, data.ciphertext, data.iv, data.timestamp, envelopes, none⟩
      ⟨{ st with logs := store_encrypted_log ks tagf key env st.logs payload },
       [.receive_message .all payload], .ok⟩

/-! ## Public-key lookup (app.py lines 201-215) -/

structure RequestKeyData where
  username : Option String
deriving DecidableEq

/-- `handle_request_public_key(data)`: a falsy username gets
`{username: None, public_key: None}` (no fingerprint member at all);
otherwise the username is echoed with the member's key and fingerprint,
`None` for both when unregistered.  In the emitted event the outer
`Option` of `fingerprint` records whether the member is present. -/
def handle_request_public_key (st : ServerState) (sid : String)
    (data : RequestKeyData) : List Event :=
  let username := data.username.getD ""
  if username = "" then
    [.public_key (.only sid) none none none]
  else
    match alookup username st.participants with
    | some member =>
        [.public_key (.only sid) (some username) (some member.public_key)
          (some (some member.fingerprint))]
    | none => [.public_key (.only sid) (some username) none (some none)]

/-! ## Leave / disconnect (app.py lines 218-225) -/

def handle_leave_chat (st : ServerState) (sid : String) : ServerState × List Event :=
  remove_participant st sid

def handle_disconnect (st : ServerState) (sid : String) : ServerState × List Event :=
  remove_participant st sid

/-! ## Sequences of registry operations -/

/-- One registry-mutating boundary operation. -/
inductive RegOp where
  | reg (sid : String) (env : Env) (data : RegisterData) : RegOp
  | rem (sid : String) : RegOp

def applyOp (st : ServerState) : RegOp → ServerState
  | .reg sid env data => (handle_register env st sid data).state
  | .rem sid => (remove_participant st sid).1

def runOps (ops : List RegOp) : ServerState := ops.foldl applyOp emptyState

/-- The registry invariant: unique usernames, unique connection handles,
the session binding and the identity records mutually consistent, and
every bound username at least two characters long. -/
def RegistryInv (st : ServerState) : Prop :=
  (akeys st.participants).Nodup ∧ (akeys st.sessions).Nodup ∧
  (∀ cid u, alookup cid st.sessions = some u ↔
    ∃ info, alookup u st.participants = some info ∧ info.sid = cid) ∧
  (∀ cid u, alookup cid st.sessions = some u → 2 ≤ u.length)

/-! ## Concrete instances used in witnesses and counterexamples -/

/-- A trivial keystream instance (the AEAD theorems hold for every
keystream of the right length). -/
def ksZero : KS := fun _ _ n => List.replicate n 0

/-- A tag instance that depends on key, nonce and ciphertext. -/
def tagDemo : TAG := fun key nonce ct =>
  (List.range 16).map
    (fun i => (key ++ nonce ++ ct).foldl (fun a b => (a + b * (i + 3)) % 256) i)

/-- A fixed environment for concrete runs. -/
def envA : Env := ⟨1, "2024-01-01T00:00:00Z", [1, 2, 3, 4, 5, 6, 7, 8, 9, 10, 11, 12]⟩

/-- The state after `alice` (connection `s1`) and `Bob` (connection
`s2`) registered, written out literally. -/
def stAB : ServerState :=
  ⟨[("alice", ⟨"AAAA", "fp-alice", "s1", 1⟩), ("Bob", ⟨"AA==", "fp-bob", "s2", 1⟩)],
   [("s1", "alice"), ("s2", "Bob")], []⟩

/-- A send from `alice` carrying an envelope for a user who is not
registered, besides the two registered ones. -/
def sdGhost : SendData :=
  ⟨some "alice", some "ct0", some "iv0", some "ts0",
   some [("alice", "e1"), ("Bob", "e2"), ("ghost", "e3")]⟩

/-- A send from `alice` carrying an envelope for `alice` only, although
`Bob` is also registered. -/
def sdOnlyAlice : SendData :=
  ⟨some "alice", some "ct0", some "iv0", some "ts0", some [("alice", "e1")]⟩

/-- A register call whose public key is not valid base64. -/
def rdBadKey : RegisterData := ⟨some "mallory", some "a"⟩

/-- A one-user state: `alice` on connection `s1`. -/
def stA : ServerState :=
  ⟨[("alice", ⟨"AAAA", "fp-alice", "s1", 1⟩)], [("s1", "alice")], []⟩

/-- The fingerprint of the public-key blob `AA==` (SHA-256 of the single
zero byte, colon-grouped). -/
def fpAA : String :=
  "6e:34:0b:9c:ff:b3:7a:98:9c:a5:44:e6:bb:78:0a:2c:78:90:1d:3f:b3:37:38:76:85:11:a3:06:17:af:a0:1d"

/-- A register call that changes `s1`'s identity to `bob`. -/
def rdBob : RegisterData := ⟨some "bob", some "AA=="⟩

/-- A lookup for a username nobody registered. -/
def rkGhost : RequestKeyData := ⟨some "ghost"⟩

/-! Standard test vectors for the primitive models. -/

example : toHex (sha256 (strBytes ("abc")))
    = "ba7816bf8f01cfea414140de5dae2223b00361a396177a9cb410ff61f20015ad" := by
  decide

example : toHex (sha256 [])
    = "e3b0c44298fc1c149afbf4c8996fb92427ae41e4649b934ca495991b7852b855" := by
  decide

example : b64decode ("Zm9vYmFy") = some (strBytes ("foobar")) := by decide

example : b64decode ("AA==") = some [0] := by decide

example : b64decode ("A A==") = some [0] := by decide

example : b64decode ("a") = none := by decide

example : b64decode ("ab=c") = none := by decide

example : b64decode ("ab==cd") = some [105] := by decide

example : b64encode [105, 183, 29] = "abcd" := by decide

example : b64encode [102] = "Zg==" := by decide

example : b64decode (b64encode [0, 255, 17, 254]) = some [0, 255, 17, 254] := by decide

/-! ## Association-list lemmas -/

theorem alookup_append (k : String) (l₁ l₂ : List (String × α)) :
    alookup k (l₁ ++ l₂) =
      match alookup k l₁ with
      | some v => some v
      | none => alookup k l₂ := by
  induction l₁ with
  | nil => simp [alookup]
  | cons p t ih =>
      obtain ⟨k', v⟩ := p
      by_cases h : k' = k <;> simp [alookup, h, ih]

theorem alookup_eq_none_of_not_mem (k : String) (l : List (String × α))
    (h : l.any (fun p => p.1 = k) = false) : alookup k l = none := by
  induction l with
  | nil => rfl
  | cons p t ih =>
      obtain ⟨k', v⟩ := p
      simp only [List.any_cons, Bool.or_eq_false_iff] at h
      have hk : k' ≠ k := by
        intro hkk
        simp [hkk] at h
      simp [alookup, hk, ih h.2]

theorem aerase_cons_self (k' : String) (v₀ : α) (t : List (String × α)) :
    aerase k' ((k', v₀) :: t) = aerase k' t := by
  simp [aerase]

theorem aerase_cons_ne (k' k₀ : String) (v₀ : α) (t : List (String × α))
    (h : k₀ ≠ k') : aerase k' ((k₀, v₀) :: t) = (k₀, v₀) :: aerase k' t := by
  simp [aerase, h]

theorem alookup_cons_self (k : String) (v₀ : α) (t : List (String × α)) :
    alookup k ((k, v₀) :: t) = some v₀ := by
  simp [alookup]

theorem alookup_cons_ne (k k₀ : String) (v₀ : α) (t : List (String × α))
    (h : k₀ ≠ k) : alookup k ((k₀, v₀) :: t) = alookup k t := by
  simp [alookup, h]

theorem alookup_aerase (k k' : String) (l : List (String × α)) :
    alookup k (aerase k' l) = if k = k' then none else alookup k l := by
  induction l with
  | nil => simp [alookup, aerase]
  | cons p t ih =>
      obtain ⟨k₀, v₀⟩ := p
      by_cases h0 : k₀ = k'
      · subst h0
        rw [aerase_cons_self, ih]
        by_cases hk : k = k₀
        · simp [hk]
        · rw [if_neg hk, if_neg hk, alookup_cons_ne k k₀ v₀ t (fun h => hk h.symm)]
      · rw [aerase_cons_ne k' k₀ v₀ t h0]
        by_cases hk : k₀ = k
        · subst hk
          rw [alookup_cons_self, alookup_cons_self]
          rw [if_neg (fun h => h0 h)]
        · rw [alookup_cons_ne k k₀ v₀ _ hk, alookup_cons_ne k k₀ v₀ t hk, ih]

theorem alookup_map_replace_ne (k k' : String) (v : α) (l : List (String × α))
    (h : k ≠ k') :
    alookup k (l.map (fun p => if p.1 = k' then (k', v) else p)) = alookup k l := by
  induction l with
  | nil => rfl
  | cons p t ih =>
      obtain ⟨k₀, v₀⟩ := p
      by_cases h0 : k₀ = k'
      · subst h0
        have hmap : ((k₀, v₀) :: t).map (fun p => if p.1 = k₀ then (k₀, v) else p)
            = (k₀, v) :: t.map (fun p => if p.1 = k₀ then (k₀, v) else p) := by
          simp
        rw [hmap, alookup_cons_ne k k₀ v _ (fun hh => h hh.symm),
          alookup_cons_ne k k₀ v₀ t (fun hh => h hh.symm), ih]
      · have hmap : ((k₀, v₀) :: t).map (fun p => if p.1 = k' then (k', v) else p)
            = (k₀, v₀) :: t.map (fun p => if p.1 = k' then (k', v) else p) := by
          simp [h0]
        rw [hmap]
        by_cases hk : k₀ = k
        · subst hk
          rw [alookup_cons_self, alookup_cons_self]
        · rw [alookup_cons_ne k k₀ v₀ _ hk, alookup_cons_ne k k₀ v₀ t hk, ih]

theorem alookup_map_replace_self (k' : String) (v : α) (l : List (String × α))
    (h : l.any (fun p => p.1 = k') = true) :
    alookup k' (l.map (fun p => if p.1 = k' then (k', v) else p)) = some v := by
  induction l with
  | nil => simp at h
  | cons p t ih =>
      obtain ⟨k₀, v₀⟩ := p
      by_cases h0 : k₀ = k'
      · subst h0
        have hmap : ((k₀, v₀) :: t).map (fun p => if p.1 = k₀ then (k₀, v) else p)
            = (k₀, v) :: t.map (fun p => if p.1 = k₀ then (k₀, v) else p) := by
          simp
        rw [hmap, alookup_cons_self]
      · have hmap : ((k₀, v₀) :: t).map (fun p => if p.1 = k' then (k', v) else p)
            = (k₀, v₀) :: t.map (fun p => if p.1 = k' then (k', v) else p) := by
          simp [h0]
        have ht : t.any (fun p => p.1 = k') = true := by
          simp only [List.any_cons, Bool.or_eq_true] at h
          rcases h with hh | hh
          · exact absurd (of_decide_eq_true hh) h0
          · exact hh
        rw [hmap, alookup_cons_ne k' k₀ v₀ _ h0, ih ht]

theorem alookup_aset (k k' : String) (v : α) (l : List (String × α)) :
    alookup k (aset k' v l) = if k = k' then some v else alookup k l := by
  unfold aset
  by_cases hany : l.any (fun p => p.1 = k') = true
  · rw [if_pos hany]
    by_cases hk : k = k'
    · subst hk
      simp [alookup_map_replace_self k v l hany]
    · simp [alookup_map_replace_ne k k' v l hk, hk]
  · rw [if_neg hany]
    rw [alookup_append]
    by_cases hk : k = k'
    · subst hk
      rw [alookup_eq_none_of_not_mem k l (Bool.eq_false_iff.mpr hany)]
      simp [alookup]
    · have h1 : alookup k [(k', v)] = none := by
        rw [alookup_cons_ne k k' v [] (fun h => hk h.symm)]
        rfl
      cases h : alookup k l <;> simp [h, h1, hk]

theorem akeys_aerase (k : String) (l : List (String × α)) :
    akeys (aerase k l) = (akeys l).filter (fun x => x ≠ k) := by
  induction l with
  | nil => rfl
  | cons p t ih =>
      obtain ⟨k₀, v₀⟩ := p
      by_cases h0 : k₀ = k <;> simp [aerase, akeys, h0, ih] at ih ⊢ <;> simpa using ih

theorem nodup_akeys_aerase (k : String) (l : List (String × α))
    (h : (akeys l).Nodup) : (akeys (aerase k l)).Nodup := by
  rw [akeys_aerase]
  exact h.filter _

theorem akeys_aset_mem (k : String) (v : α) (l : List (String × α))
    (h : l.any (fun p => p.1 = k) = true) : akeys (aset k v l) = akeys l := by
  unfold aset
  rw [if_pos h]
  unfold akeys
  rw [List.map_map]
  apply List.map_congr_left
  intro p _
  by_cases h0 : p.1 = k <;> simp [h0]

theorem akeys_aset_new (k : String) (v : α) (l : List (String × α))
    (h : l.any (fun p => p.1 = k) = false) : akeys (aset k v l) = akeys l ++ [k] := by
  unfold aset
  rw [if_neg (by rw [h]; exact Bool.false_ne_true)]
  simp [akeys]

theorem nodup_akeys_aset (k : String) (v : α) (l : List (String × α))
    (h : (akeys l).Nodup) : (akeys (aset k v l)).Nodup := by
  by_cases hany : l.any (fun p => p.1 = k) = true
  · rwa [akeys_aset_mem k v l hany]
  · rw [akeys_aset_new k v l (Bool.eq_false_iff.mpr hany)]
    rw [List.nodup_append]
    refine ⟨h, List.nodup_singleton k, ?_⟩
    intro x hx hk
    simp only [List.mem_singleton] at hk
    subst hk
    have : l.any (fun p => p.1 = x) = true := by
      rcases List.mem_map.mp hx with ⟨p, hp, hpx⟩
      exact List.any_eq_true.mpr ⟨p, hp, by simp [hpx]⟩
    simp [this] at hany

/-! ## Characterization of `remove_participant` -/

theorem ne_empty_of_two_le (u : String) (h : 2 ≤ u.length) : u ≠ "" := by
  intro he
  subst he
  exact absurd h (by decide)

/-- Full description of `remove_participant` on states satisfying the
registry invariant. -/
theorem remove_participant_spec (st : ServerState) (sid : String)
    (hInv : RegistryInv st) :
    RegistryInv (remove_participant st sid).1 ∧
    (remove_participant st sid).1.logs = st.logs ∧
    alookup sid (remove_participant st sid).1.sessions = none ∧
    (∀ c, c ≠ sid →
      alookup c (remove_participant st sid).1.sessions = alookup c st.sessions) ∧
    (∀ u, alookup u (remove_participant st sid).1.participants =
      if alookup sid st.sessions = some u then none
      else alookup u st.participants) ∧
    (match alookup sid st.sessions with
     | none => remove_participant st sid = (st, [])
     | some u => ∃ info, alookup u st.participants = some info ∧ info.sid = sid ∧
         remove_participant st sid =
           ({ st with participants := aerase u st.participants,
                      sessions := aerase sid st.sessions },
            [.user_left (.allExcept sid) u info.fingerprint,
             .participants .all (participant_snapshot (aerase u st.participants))])) := by
  obtain ⟨hnp, hns, hcorr, hlen⟩ := hInv
  cases hs : alookup sid st.sessions with
  | none =>
      have hre : remove_participant st sid = (st, []) := by
        simp only [remove_participant, hs]
      rw [hre]
      refine ⟨⟨hnp, hns, hcorr, hlen⟩, rfl, hs, fun c _ => rfl, ?_, rfl⟩
      intro u
      rw [if_neg (by simp [hs])]
  | some u =>
      have hu2 : 2 ≤ u.length := hlen sid u hs
      have hune : u ≠ "" := ne_empty_of_two_le u hu2
      obtain ⟨info, hpi, hpsid⟩ := (hcorr sid u).mp hs
      have hre : remove_participant st sid =
          ({ st with participants := aerase u st.participants,
                     sessions := aerase sid st.sessions },
           [.user_left (.allExcept sid) u info.fingerprint,
            .participants .all (participant_snapshot (aerase u st.participants))]) := by
        simp only [remove_participant, hs, if_neg hune, hpi, broadcast_participants]
      rw [hre]
      have husess : ∀ u', alookup u' st.sessions = some u → u' = sid := by
        intro u' hu'
        obtain ⟨info', hpi', hsid'⟩ := (hcorr u' u).mp hu'
        rw [hpi] at hpi'
        cases hpi'
        rw [← hsid', hpsid]
      refine ⟨⟨nodup_akeys_aerase u st.participants hnp,
               nodup_akeys_aerase sid st.sessions hns, ?_, ?_⟩, rfl, ?_, ?_, ?_, ?_⟩
      · intro cid u'
        constructor
        · intro h
          rw [alookup_aerase] at h
          by_cases hc : cid = sid
          · rw [if_pos hc] at h
            exact absurd h (by simp)
          · rw [if_neg hc] at h
            obtain ⟨info', hpi', hsid'⟩ := (hcorr cid u').mp h
            have hu'u : u' ≠ u := by
              intro he
              subst he
              rw [hpi] at hpi'
              cases hpi'
              exact hc (by rw [← hsid', hpsid])
            exact ⟨info', by rw [alookup_aerase, if_neg hu'u]; exact hpi', hsid'⟩
        · rintro ⟨info', hpi', hsid'⟩
          rw [alookup_aerase] at hpi'
          by_cases hu'u : u' = u
          · rw [if_pos hu'u] at hpi'
            exact absurd hpi' (by simp)
          · rw [if_neg hu'u] at hpi'
            have hsess := (hcorr cid u').mpr ⟨info', hpi', hsid'⟩
            have hcid : cid ≠ sid := by
              intro hc
              subst hc
              rw [hs] at hsess
              cases hsess
              exact hu'u rfl
            rw [alookup_aerase, if_neg hcid]
            exact hsess
      · intro cid u' h
        rw [alookup_aerase] at h
        by_cases hc : cid = sid
        · rw [if_pos hc] at h
          exact absurd h (by simp)
        · rw [if_neg hc] at h
          exact hlen cid u' h
      · rw [alookup_aerase, if_pos rfl]
      · intro c hc
        rw [alookup_aerase, if_neg hc]
      · intro u'
        rw [alookup_aerase]
        by_cases hu'u : u' = u
        · subst hu'u
          rw [if_pos rfl, if_pos rfl]
        · rw [if_neg hu'u,
            if_neg (fun h => hu'u (by injection h with h'; exact h'.symm))]
      · exact ⟨info, hpi, hpsid, rfl⟩

/-! ## Characterization of `handle_register` -/

theorem handle_register_reject_missing (env : Env) (st : ServerState) (sid : String)
    (data : RegisterData)
    (h : pyStrip (data.username.getD "") = "" ∨ data.public_key = none
      ∨ data.public_key = some "") :
    handle_register env st sid data =
      ⟨st, [.register_error (.only sid) "Username and public key are required."],
       .rejected "Username and public key are required."⟩ := by
  simp only [handle_register]
  rw [if_pos h]

theorem handle_register_reject_short (env : Env) (st : ServerState) (sid : String)
    (data : RegisterData)
    (h1 : ¬(pyStrip (data.username.getD "") = "" ∨ data.public_key = none
      ∨ data.public_key = some ""))
    (h2 : (pyStrip (data.username.getD "")).length < 2) :
    handle_register env st sid data =
      ⟨st, [.register_error (.only sid) "Username must be at least 2 characters."],
       .rejected "Username must be at least 2 characters."⟩ := by
  simp only [handle_register]
  rw [if_neg h1, if_pos h2]

theorem handle_register_reject_conflict (env : Env) (st : ServerState) (sid : String)
    (data : RegisterData) (existing : PartInfo)
    (h1 : ¬(pyStrip (data.username.getD "") = "" ∨ data.public_key = none
      ∨ data.public_key = some ""))
    (h2 : ¬(pyStrip (data.username.getD "")).length < 2)
    (h3 : alookup (pyStrip (data.username.getD "")) st.participants = some existing)
    (h4 : existing.sid ≠ sid) :
    handle_register env st sid data =
      ⟨st, [.register_error (.only sid) "That username is already in use."],
       .rejected "That username is already in use."⟩ := by
  simp only [handle_register]
  rw [if_neg h1, if_neg h2, h3]
  rw [if_pos (decide_eq_true h4)]

theorem handle_register_raised (env : Env) (st : ServerState) (sid : String)
    (data : RegisterData)
    (h1 : ¬(pyStrip (data.username.getD "") = "" ∨ data.public_key = none
      ∨ data.public_key = some ""))
    (h2 : ¬(pyStrip (data.username.getD "")).length < 2)
    (h3 : ∀ existing, alookup (pyStrip (data.username.getD "")) st.participants
      = some existing → existing.sid = sid)
    (h4 : compute_fingerprint (data.public_key.getD "") = none) :
    handle_register env st sid data = ⟨st, [], .raised⟩ := by
  have hcond : (match alookup (pyStrip (data.username.getD "")) st.participants with
      | some existing => decide (existing.sid ≠ sid)
      | none => false) = false := by
    cases halex : alookup (pyStrip (data.username.getD "")) st.participants with
    | none => rfl
    | some ex => simp [h3 ex halex]
  simp only [handle_register]
  rw [if_neg h1, if_neg h2, if_neg (by rw [hcond]; exact Bool.false_ne_true), h4]

theorem handle_register_success (env : Env) (st : ServerState) (sid : String)
    (data : RegisterData) (username fp : String)
    (hu : pyStrip (data.username.getD "") = username)
    (h1 : ¬(username = "" ∨ data.public_key = none ∨ data.public_key = some ""))
    (h2 : ¬username.length < 2)
    (h3 : ∀ existing, alookup username st.participants = some existing →
      existing.sid = sid)
    (h4 : compute_fingerprint (data.public_key.getD "") = some fp) :
    handle_register env st sid data =
      ⟨⟨aset username ⟨data.public_key.getD "", fp, sid, env.now⟩
          (remove_participant st sid).1.participants,
        aset sid username (remove_participant st sid).1.sessions,
        (remove_participant st sid).1.logs⟩,
       (remove_participant st sid).2 ++
         [.register_success (.only sid) username fp
            (participant_snapshot (aset username
              ⟨data.public_key.getD "", fp, sid, env.now⟩
              (remove_participant st sid).1.participants)),
          .user_joined (.allExcept sid) username fp,
          .participants .all
            (participant_snapshot (aset username
              ⟨data.public_key.getD "", fp, sid, env.now⟩
              (remove_participant st sid).1.participants))],
       .ok⟩ := by
  have hcond : (match alookup username st.participants with
      | some existing => decide (existing.sid ≠ sid)
      | none => false) = false := by
    cases halex : alookup username st.participants with
    | none => rfl
    | some ex => simp [h3 ex halex]
  simp only [handle_register, hu]
  rw [if_neg h1, if_neg h2, if_neg (by rw [hcond]; exact Bool.false_ne_true), h4]
  rfl

/-! ## Characterization of `handle_send_message` -/

theorem handle_send_reject_missing_sender (ks : KS) (tagf : TAG) (key : List Nat)
    (env : Env) (st : ServerState) (sid : String) (data : SendData)
    (h : data.«from» = none ∨ data.«from» = some "") :
    handle_send_message ks tagf key env st sid data =
      ⟨st, [.delivery_error (.only sid) "Missing sender username."],
       .rejected "Missing sender username."⟩ := by
  have hget : data.«from».getD "" = "" := by
    rcases h with h | h <;> rw [h] <;> rfl
  simp only [handle_send_message, hget]
  rw [if_pos trivial]

theorem handle_send_reject_unregistered (ks : KS) (tagf : TAG) (key : List Nat)
    (env : Env) (st : ServerState) (sid : String) (data : SendData) (sender : String)
    (hs : data.«from» = some sender) (hne : sender ≠ "")
    (h : ∀ m, alookup sender st.participants = some m → m.sid ≠ sid) :
    handle_send_message ks tagf key env st sid data =
      ⟨st, [.delivery_error (.only sid) "Sender not registered."],
       .rejected "Sender not registered."⟩ := by
  have hcond : (match alookup sender st.participants with
      | some member => decide (member.sid ≠ sid)
      | none => true) = true := by
    cases hm : alookup sender st.participants with
    | none => rfl
    | some m => exact decide_eq_true (h m hm)
  simp only [handle_send_message, hs, Option.getD_some]
  rw [if_neg hne, if_pos hcond]

theorem handle_send_reject_missing_env (ks : KS) (tagf : TAG) (key : List Nat)
    (env : Env) (st : ServerState) (sid : String) (data : SendData)
    (sender : String) (member : PartInfo)
    (hs : data.«from» = some sender) (hne : sender ≠ "")
    (hm : alookup sender st.participants = some member) (hmsid : member.sid = sid)
    (hmiss : missingOf st data ≠ []) :
    handle_send_message ks tagf key env st sid data =
      ⟨st, [.delivery_error (.only sid)
              ("Missing envelopes for: "
                ++ String.intercalate (", ") (missingOf st data))],
       .rejected ("Missing envelopes for: "
                ++ String.intercalate (", ") (missingOf st data))⟩ := by
  have hcond : (match alookup sender st.participants with
      | some member => decide (member.sid ≠ sid)
      | none => true) = false := by
    rw [hm]
    simp [hmsid]
  have hne2 : (missingOf st data).isEmpty = false := by
    cases hml : missingOf st data with
    | nil => exact absurd hml hmiss
    | cons a t => rfl
  simp only [handle_send_message, hs, Option.getD_some]
  rw [if_neg hne, if_neg (by rw [hcond]; exact Bool.false_ne_true), if_pos hne2]

theorem handle_send_success (ks : KS) (tagf : TAG) (key : List Nat)
    (env : Env) (st : ServerState) (sid : String) (data : SendData)
    (sender : String) (member : PartInfo)
    (hs : data.«from» = some sender) (hne : sender ≠ "")
    (hm : alookup sender st.participants = some member) (hmsid : member.sid = sid)
    (hmiss : missingOf st data = []) :
    handle_send_message ks tagf key env st sid data =
      ⟨{ st with
           logs := store_encrypted_log ks tagf key env st.logs
                     (⟨sender, data.ciphertext, data.iv, data.timestamp,
                       data.envelopes.getD [], none⟩ : Payload) },
       [.receive_message .all
          ⟨sender, data.ciphertext, data.iv, data.timestamp,
           data.envelopes.getD [], none⟩],
       .ok⟩ := by
  have hcond : (match alookup sender st.participants with
      | some member => decide (member.sid ≠ sid)
      | none => true) = false := by
    rw [hm]
    simp [hmsid]
  have h0 : (missingOf st data).isEmpty = true := by rw [hmiss]; rfl
  simp only [handle_send_message, hs, Option.getD_some]
  rw [if_neg hne, if_neg (by rw [hcond]; exact Bool.false_ne_true)]
  rw [if_neg (by rw [h0]; exact fun hc => Bool.noConfusion hc)]

/-! ## Sorting and lookup support lemmas -/

theorem alookup_eq_none_iff (k : String) (l : List (String × α)) :
    alookup k l = none ↔ l.any (fun p => p.1 = k) = false := by
  constructor
  · intro h
    induction l with
    | nil => rfl
    | cons p t ih =>
        obtain ⟨k₀, v₀⟩ := p
        by_cases h0 : k₀ = k
        · subst h0
          rw [alookup_cons_self] at h
          exact absurd h (by simp)
        · rw [alookup_cons_ne k k₀ v₀ t h0] at h
          simp [h0, ih h]
  · exact alookup_eq_none_of_not_mem k l

theorem alookup_none_not_mem_akeys (k : String) (l : List (String × α)) :
    alookup k l = none ↔ k ∉ akeys l := by
  rw [alookup_eq_none_iff]
  constructor
  · intro h hk
    rcases List.mem_map.mp hk with ⟨p, hp, hpk⟩
    have : l.any (fun p => p.1 = k) = true := List.any_eq_true.mpr ⟨p, hp, by simp [hpk]⟩
    rw [h] at this
    exact Bool.noConfusion this
  · intro h
    cases hany : l.any (fun p => p.1 = k) with
    | false => rfl
    | true =>
        rcases List.any_eq_true.mp hany with ⟨p, hp, hpk⟩
        exact absurd (List.mem_map.mpr ⟨p, hp, of_decide_eq_true hpk⟩) h

theorem alookup_some_mem_akeys (k : String) (v : α) (l : List (String × α))
    (h : alookup k l = some v) : k ∈ akeys l := by
  by_contra hk
  rw [← alookup_none_not_mem_akeys] at hk
  rw [h] at hk
  exact Option.noConfusion hk

theorem insertSorted_perm (le : α → α → Bool) (x : α) (l : List α) :
    (insertSorted le x l).Perm (x :: l) := by
  induction l with
  | nil => exact List.Perm.refl _
  | cons y ys ih =>
      by_cases h : le y x = true
      · simp only [insertSorted, if_pos h]
        exact (ih.cons y).trans (List.Perm.swap x y ys)
      · simp only [insertSorted, if_neg h]
        exact List.Perm.refl _

theorem stableSortBy_perm (le : α → α → Bool) (l : List α) :
    (stableSortBy le l).Perm l := by
  have main : ∀ (l acc : List α), ((l.foldl (fun a x => insertSorted le x a) acc)).Perm (acc ++ l) := by
    intro l
    induction l with
    | nil => intro acc; simp
    | cons x xs ih =>
        intro acc
        have h1 := ih (insertSorted le x acc)
        have h2 : (insertSorted le x acc ++ xs).Perm (acc ++ x :: xs) := by
          have hp : (insertSorted le x acc).Perm (x :: acc) := insertSorted_perm le x acc
          have h3 : (insertSorted le x acc ++ xs).Perm ((x :: acc) ++ xs) :=
            hp.append_right xs
          have h4 : ((x :: acc) ++ xs) = x :: (acc ++ xs) := rfl
          rw [h4] at h3
          exact h3.trans (List.perm_middle).symm
        exact h1.trans h2
  simpa using main l []

theorem listLtChars_iff : ∀ (as bs : List Char), listLtChars as bs = true ↔ as < bs := by
  intro as
  induction as with
  | nil =>
      intro bs
      cases bs with
      | nil =>
          constructor
          · intro h; exact Bool.noConfusion h
          · intro h; cases h
      | cons b bs =>
          constructor
          · intro _; exact List.Lex.nil
          · intro _; rfl
  | cons c cs ih =>
      intro bs
      cases bs with
      | nil =>
          constructor
          · intro h; exact Bool.noConfusion h
          · intro h; cases h
      | cons d ds =>
          show (if c < d then true else if d < c then false else listLtChars cs ds) = true
            ↔ (c :: cs) < (d :: ds)
          by_cases hcd : c < d
          · rw [if_pos hcd]
            constructor
            · intro _; exact List.Lex.rel hcd
            · intro _; rfl
          · rw [if_neg hcd]
            by_cases hdc : d < c
            · rw [if_pos hdc]
              constructor
              · intro h; exact Bool.noConfusion h
              · intro h
                cases h with
                | cons h3 => exact absurd hdc (lt_irrefl _)
                | rel h' => exact absurd h' hcd
            · rw [if_neg hdc]
              have hcdeq : c = d := le_antisymm (le_of_not_lt hdc) (le_of_not_lt hcd)
              subst hcdeq
              rw [ih ds]
              constructor
              · intro h; exact List.Lex.cons h
              · intro h
                cases h with
                | cons h3 => exact h3
                | rel h' => exact absurd h' hcd

theorem strLeB_iff (a b : String) : strLeB a b = true ↔ a ≤ b := by
  have h1 : strLeB a b = true ↔ ¬(listLtChars b.data a.data = true) := by
    unfold strLeB
    cases hx : listLtChars b.data a.data <;> simp [hx]
  rw [h1, listLtChars_iff]
  constructor
  · intro h
    exact not_lt.mp (fun hba => h (String.lt_iff_toList_lt.mp hba))
  · intro h hba
    exact absurd (String.lt_iff_toList_lt.mpr hba) (not_lt.mpr h)

theorem insertSorted_sorted (x : String) (l : List String)
    (h : l.Sorted (· ≤ ·)) :
    (insertSorted strLeB x l).Sorted (· ≤ ·) := by
  induction l with
  | nil => simp [insertSorted]
  | cons y ys ih =>
      rw [List.sorted_cons] at h
      by_cases hle : strLeB y x = true
      · simp only [insertSorted, if_pos hle]
        rw [List.sorted_cons]
        refine ⟨?_, ih h.2⟩
        intro b hb
        have hmem := (insertSorted_perm strLeB x ys).mem_iff.mp hb
        rcases List.mem_cons.mp hmem with hb' | hb'
        · rw [hb']
          exact (strLeB_iff y x).mp hle
        · exact h.1 b hb'
      · simp only [insertSorted, if_neg hle]
        rw [List.sorted_cons]
        have hxy : x ≤ y := le_of_not_le (fun hc => hle ((strLeB_iff y x).mpr hc))
        refine ⟨?_, List.sorted_cons.mpr h⟩
        intro b hb
        rcases List.mem_cons.mp hb with hb | hb
        · exact hb ▸ hxy
        · exact le_trans hxy (h.1 b hb)

theorem sortStrings_sorted (l : List String) : (sortStrings l).Sorted (· ≤ ·) := by
  unfold sortStrings stableSortBy
  have main : ∀ (l acc : List String), acc.Sorted (· ≤ ·) →
      (l.foldl (fun a x => insertSorted strLeB x a) acc).Sorted (· ≤ ·) := by
    intro l
    induction l with
    | nil => intro acc h; exact h
    | cons x xs ih => intro acc h; exact ih _ (insertSorted_sorted x acc h)
  exact main l [] List.sorted_nil

theorem sortStrings_perm (l : List String) : (sortStrings l).Perm l :=
  stableSortBy_perm _ l

/-- Membership in a snapshot is membership among the registry keys. -/
theorem mem_snapshot_iff (parts : List (String × PartInfo)) (u : String) :
    u ∈ (participant_snapshot parts).map SnapshotEntry.username ↔ u ∈ akeys parts := by
  unfold participant_snapshot
  rw [List.map_map]
  constructor
  · intro h
    rcases List.mem_map.mp h with ⟨p, hp, hpu⟩
    have hp' := (stableSortBy_perm _ parts).mem_iff.mp hp
    exact List.mem_map.mpr ⟨p, hp', hpu⟩
  · intro h
    rcases List.mem_map.mp h with ⟨p, hp, hpu⟩
    have hp' := (stableSortBy_perm
      (fun a b => strLeB (pyLower a.1) (pyLower b.1)) parts).mem_iff.mpr hp
    exact List.mem_map.mpr ⟨p, hp', hpu⟩

theorem missing_msg_ne (x : String) :
    ("Missing envelopes for: " ++ x) ≠ "Sender not registered." := by
  intro h
  have hl := congrArg String.length h
  rw [String.length_append] at hl
  have h1 : ("Missing envelopes for: ").length = 23 := by decide
  have h2 : ("Sender not registered.").length = 22 := by decide
  omega

/-! ## Branch exhaustion for the two handlers -/

theorem handle_register_shapes (env : Env) (st : ServerState) (sid : String)
    (data : RegisterData) :
    (∃ m, handle_register env st sid data =
        ⟨st, [.register_error (.only sid) m], .rejected m⟩) ∨
    handle_register env st sid data = ⟨st, [], .raised⟩ ∨
    (handle_register env st sid data).outcome = .ok := by
  by_cases h1 : (pyStrip (data.username.getD "") = "" ∨ data.public_key = none
      ∨ data.public_key = some "")
  · exact .inl ⟨_, handle_register_reject_missing env st sid data h1⟩
  by_cases h2 : (pyStrip (data.username.getD "")).length < 2
  · exact .inl ⟨_, handle_register_reject_short env st sid data h1 h2⟩
  have next : (∀ existing,
      alookup (pyStrip (data.username.getD "")) st.participants = some existing →
      existing.sid = sid) ∨
      (∃ existing, alookup (pyStrip (data.username.getD "")) st.participants
        = some existing ∧ existing.sid ≠ sid) := by
    cases hex : alookup (pyStrip (data.username.getD "")) st.participants with
    | none => exact .inl (fun e he => Option.noConfusion he)
    | some ex =>
        by_cases hsid : ex.sid = sid
        · exact .inl (fun e he => by
            injection he with hee
            subst hee
            exact hsid)
        · exact .inr ⟨ex, rfl, hsid⟩
  rcases next with h3 | ⟨ex, hex, hsid⟩
  · cases hfp : compute_fingerprint (data.public_key.getD "") with
    | none => exact .inr (.inl (handle_register_raised env st sid data h1 h2 h3 hfp))
    | some fp =>
        refine .inr (.inr ?_)
        rw [handle_register_success env st sid data _ fp rfl
          (by rwa [← (rfl : pyStrip (data.username.getD "") = pyStrip (data.username.getD ""))])
          h2 h3 hfp]
  · exact .inl ⟨_, handle_register_reject_conflict env st sid data ex h1 h2 hex hsid⟩

theorem handle_send_shapes (ks : KS) (tagf : TAG) (key : List Nat) (env : Env)
    (st : ServerState) (sid : String) (data : SendData) :
    (∃ m, handle_send_message ks tagf key env st sid data =
        ⟨st, [.delivery_error (.only sid) m], .rejected m⟩) ∨
    (handle_send_message ks tagf key env st sid data).outcome = .ok := by
  cases hfrom : data.«from» with
  | none =>
      exact .inl ⟨_, handle_send_reject_missing_sender ks tagf key env st sid data
        (.inl hfrom)⟩
  | some s =>
      by_cases hse : s = ""
      · exact .inl ⟨_, handle_send_reject_missing_sender ks tagf key env st sid data
          (.inr (by rw [hfrom, hse]))⟩
      have next : (∃ m, alookup s st.participants = some m ∧ m.sid = sid) ∨
          (∀ m, alookup s st.participants = some m → m.sid ≠ sid) := by
        cases hm : alookup s st.participants with
        | none => exact .inr (fun m hm' => Option.noConfusion hm')
        | some m =>
            by_cases hms : m.sid = sid
            · exact .inl ⟨m, rfl, hms⟩
            · exact .inr (fun m' hm' => by
                injection hm' with hmm
                subst hmm
                exact hms)
      rcases next with ⟨m, hm, hms⟩ | hbad
      · by_cases hmiss : missingOf st data = []
        · rw [handle_send_success ks tagf key env st sid data s m hfrom hse hm hms hmiss]
          exact .inr rfl
        · exact .inl ⟨_, handle_send_reject_missing_env ks tagf key env st sid data
            s m hfrom hse hm hms hmiss⟩
      · exact .inl ⟨_, handle_send_reject_unregistered ks tagf key env st sid data
          s hfrom hse hbad⟩

/-! ## Claim theorems -/

/-- **C9, counterexample.** For an unknown but non-empty username, the
reply is not `{username: null, publicKey: null}`: the username is echoed
back and a null fingerprint member is included. -/
theorem C9_counterexample :
    handle_request_public_key emptyState "s9" rkGhost
        ≠ [.public_key (.only "s9") none none none] ∧
    handle_request_public_key emptyState "s9" rkGhost
        = [.public_key (.only "s9") (some "ghost") none (some none)] := by
  constructor
  · decide
  · decide

/-- **C9 (amended).** `requestPublicKey` replies `{username: null,
public_key: null}` (no fingerprint member) exactly for a missing or
empty username; for a non-empty username with no IdentityRecord it
replies `{username, public_key: null, fingerprint: null}` echoing the
requested name; for a registered one it replies the member's
`{username, public_key, fingerprint}`. -/
theorem C9_request_public_key_reply (st : ServerState) (sid u : String)
    (m : PartInfo) :
    (handle_request_public_key st sid ⟨none⟩
        = [.public_key (.only sid) none none none]) ∧
    (handle_request_public_key st sid ⟨some ""⟩
        = [.public_key (.only sid) none none none]) ∧
    (u ≠ "" → alookup u st.participants = none →
      handle_request_public_key st sid ⟨some u⟩
        = [.public_key (.only sid) (some u) none (some none)]) ∧
    (u ≠ "" → alookup u st.participants = some m →
      handle_request_public_key st sid ⟨some u⟩
        = [.public_key (.only sid) (some u) (some m.public_key)
             (some (some m.fingerprint))]) := by
  refine ⟨rfl, rfl, ?_, ?_⟩
  · intro hne hnone
    simp only [handle_request_public_key, Option.getD_some]
    rw [if_neg hne, hnone]
  · intro hne hsome
    simp only [handle_request_public_key, Option.getD_some]
    rw [if_neg hne, hsome]

/-- **C9, witness.** -/
theorem C9_witness :
    handle_request_public_key emptyState "s9" ⟨some "ghost"⟩
      = [.public_key (.only "s9") (some "ghost") none (some none)] :=
  (C9_request_public_key_reply emptyState "s9" "ghost" ⟨"", "", "", 0⟩).2.2.1
    (by decide) rfl

/-- **C4.** With a non-empty claimed sender, the relay rejects with
exactly the message `Sender not registered.` precisely when the sender
has no identity record or its bound connection differs from the caller;
in that case the state (registry and audit log) is unchanged and the
only emission is the rejection to the caller — nothing is broadcast and
no log entry is written. -/
theorem C4_sender_not_registered (ks : KS) (tagf : TAG) (key : List Nat)
    (env : Env) (st : ServerState) (sid : String) (data : SendData)
    (sender : String) (hs : data.«from» = some sender) (hne : sender ≠ "") :
    ((handle_send_message ks tagf key env st sid data).outcome
        = .rejected "Sender not registered."
      ↔ (∀ m, alookup sender st.participants = some m → m.sid ≠ sid)) ∧
    ((∀ m, alookup sender st.participants = some m → m.sid ≠ sid) →
      handle_send_message ks tagf key env st sid data
        = ⟨st, [.delivery_error (.only sid) "Sender not registered."],
           .rejected "Sender not registered."⟩) := by
  have hchar := handle_send_reject_unregistered ks tagf key env st sid data sender hs hne
  refine ⟨⟨?_, fun h => by rw [hchar h]⟩, hchar⟩
  intro hout
  by_contra hbad
  push_neg at hbad
  obtain ⟨m, hm, hms⟩ := hbad
  by_cases hmiss : missingOf st data = []
  · rw [handle_send_success ks tagf key env st sid data sender m hs hne hm hms hmiss]
      at hout
    exact HandlerOutcome.noConfusion hout
  · rw [handle_send_reject_missing_env ks tagf key env st sid data sender m
      hs hne hm hms hmiss] at hout
    exact missing_msg_ne _ (HandlerOutcome.rejected.inj hout)

/-- **C4, witness.** A connection that never registered as `ghost`
cannot relay as `ghost`: concretely rejected with no state change. -/
theorem C4_witness :
    handle_send_message ksZero tagDemo [] envA emptyState "s1"
        ⟨some "ghost", none, none, none, none⟩
      = ⟨emptyState, [.delivery_error (.only "s1") "Sender not registered."],
         .rejected "Sender not registered."⟩ :=
  (C4_sender_not_registered ksZero tagDemo [] envA emptyState "s1"
      ⟨some "ghost", none, none, none, none⟩ "ghost" rfl (by decide)).2
    (fun m hm => Option.noConfusion hm)

/-- **C3, counterexample.** A `DecodeError` (invalid base64 public key
at register) is not reported back as a structured rejection: the
handler aborts with no emission at all (the state is still unchanged,
and the framework swallows the exception). -/
theorem C3_counterexample :
    (handle_register envA emptyState "s1" rdBadKey).outcome = .raised ∧
    (handle_register envA emptyState "s1" rdBadKey).events = [] ∧
    (handle_register envA emptyState "s1" rdBadKey).state = emptyState := by
  refine ⟨by decide, by decide, by decide⟩

/-- **C3 (amended).** Every rejected register or relay call leaves the
whole server state (registry bindings and audit log) unchanged and
emits exactly one structured rejection to the originating connection —
no broadcast, no audit-log entry; a register call that raises
(`DecodeError`) likewise leaves the state unchanged but emits nothing
at all. -/
theorem C3_failures_frame (env : Env) (st : ServerState) (sid : String)
    (rdata : RegisterData) (ks : KS) (tagf : TAG) (key : List Nat)
    (sdata : SendData) (msg : String) :
    ((handle_register env st sid rdata).outcome = .rejected msg →
      (handle_register env st sid rdata).state = st ∧
      (handle_register env st sid rdata).events
        = [.register_error (.only sid) msg]) ∧
    ((handle_register env st sid rdata).outcome = .raised →
      (handle_register env st sid rdata).state = st ∧
      (handle_register env st sid rdata).events = []) ∧
    ((handle_send_message ks tagf key env st sid sdata).outcome = .rejected msg →
      (handle_send_message ks tagf key env st sid sdata).state = st ∧
      (handle_send_message ks tagf key env st sid sdata).events
        = [.delivery_error (.only sid) msg]) := by
  refine ⟨?_, ?_, ?_⟩
  · intro h
    rcases handle_register_shapes env st sid rdata with ⟨m, hsh⟩ | hsh | hsh
    · rw [hsh] at h ⊢
      have h' : HandlerOutcome.rejected m = .rejected msg := h
      cases HandlerOutcome.rejected.inj h'
      exact ⟨rfl, rfl⟩
    · rw [hsh] at h
      exact HandlerOutcome.noConfusion (show HandlerOutcome.raised = .rejected msg from h)
    · rw [h] at hsh
      exact HandlerOutcome.noConfusion hsh
  · intro h
    rcases handle_register_shapes env st sid rdata with ⟨m, hsh⟩ | hsh | hsh
    · rw [hsh] at h
      exact HandlerOutcome.noConfusion (show HandlerOutcome.rejected m = .raised from h)
    · rw [hsh]
      exact ⟨rfl, rfl⟩
    · rw [h] at hsh
      exact HandlerOutcome.noConfusion hsh
  · intro h
    rcases handle_send_shapes ks tagf key env st sid sdata with ⟨m, hsh⟩ | hsh
    · rw [hsh] at h ⊢
      have h' : HandlerOutcome.rejected m = .rejected msg := h
      cases HandlerOutcome.rejected.inj h'
      exact ⟨rfl, rfl⟩
    · rw [h] at hsh
      exact HandlerOutcome.noConfusion hsh

/-- **C3, witness.** The raised branch at a concrete input. -/
theorem C3_witness :
    (handle_register envA emptyState "s1" rdBadKey).state = emptyState ∧
    (handle_register envA emptyState "s1" rdBadKey).events = [] :=
  (C3_failures_frame envA emptyState "s1" rdBadKey ksZero tagDemo []
      ⟨none, none, none, none, none⟩ "x").2.1 (by decide)

/-- **C10.** On a successful relay, the broadcast payload carries
exactly the client-supplied `from`, `ciphertext`, `iv`, `timestamp` and
`envelopes` values (`none` = JSON null where absent) and has no
`stored_at` member, while the audit-log copy that gets encrypted is the
extended copy with `stored_at` set — the append never mutates the
broadcast payload. -/
theorem C10_broadcast_payload_unmutated (ks : KS) (tagf : TAG) (key : List Nat)
    (env : Env) (st : ServerState) (sid : String) (data : SendData)
    (sender : String) (member : PartInfo)
    (hs : data.«from» = some sender) (hne : sender ≠ "")
    (hm : alookup sender st.participants = some member) (hmsid : member.sid = sid)
    (hmiss : missingOf st data = []) :
    handle_send_message ks tagf key env st sid data
      = ⟨{ st with
             logs := st.logs ++
               [⟨b64encode env.nonce,
                 b64encode (aeadEncrypt ks tagf key env.nonce (strBytes (String.mk
                   (serializePayload (⟨sender, data.ciphertext, data.iv,
                     data.timestamp, data.envelopes.getD [],
                     some env.now_str⟩ : Payload)))))⟩] },
         [.receive_message .all
            (⟨sender, data.ciphertext, data.iv, data.timestamp,
              data.envelopes.getD [], none⟩ : Payload)],
         .ok⟩ ∧
    (⟨sender, data.ciphertext, data.iv, data.timestamp,
      data.envelopes.getD [], none⟩ : Payload).stored_at = none := by
  refine ⟨?_, rfl⟩
  rw [handle_send_success ks tagf key env st sid data sender member hs hne hm hmsid hmiss]
  rfl

/-- **C10, witness.** A concrete successful relay on the two-user state. -/
theorem C10_witness :
    handle_send_message ksZero tagDemo [] envA stAB "s1"
        ⟨some "alice", none, some "iv1", none, some [("alice", "e1"), ("Bob", "e2")]⟩
      = ⟨{ stAB with
             logs := stAB.logs ++
               [⟨b64encode envA.nonce,
                 b64encode (aeadEncrypt ksZero tagDemo [] envA.nonce
                   (strBytes (String.mk (serializePayload
                     (⟨"alice", none, some "iv1", none,
                       [("alice", "e1"), ("Bob", "e2")],
                       some envA.now_str⟩ : Payload)))))⟩] },
         [.receive_message .all
            (⟨"alice", none, some "iv1", none,
              [("alice", "e1"), ("Bob", "e2")], none⟩ : Payload)],
         .ok⟩ :=
  (C10_broadcast_payload_unmutated ksZero tagDemo [] envA stAB "s1"
      ⟨some "alice", none, some "iv1", none, some [("alice", "e1"), ("Bob", "e2")]⟩
      "alice" ⟨"AAAA", "fp-alice", "s1", 1⟩ rfl (by decide) (by decide) rfl
      (by decide)).1

/-- **C1, counterexample.** A message whose envelope key set is a strict
superset of the registered-username set (an envelope for unregistered
`ghost`) is relayed and broadcast, so "relayed only if the envelope key
set equals the registered set" fails on the code. -/
theorem C1_counterexample :
    (handle_send_message ksZero tagDemo [] envA stAB "s1" sdGhost).outcome = .ok ∧
    (handle_send_message ksZero tagDemo [] envA stAB "s1" sdGhost).events
      = [.receive_message .all
           (⟨"alice", some "ct0", some "iv0", some "ts0",
             [("alice", "e1"), ("Bob", "e2"), ("ghost", "e3")], none⟩ : Payload)] ∧
    ("ghost" ∉ akeys stAB.participants) ∧
    "ghost" ∈ (sdGhost.envelopes.getD []).map Prod.fst := by
  refine ⟨by decide, by decide, by decide, by decide⟩

/-- **C1 (amended).** For a registered sender, the relay checks that the
envelope key set covers (is a superset of) the live registered-username
set: if some registered username lacks an envelope the message is
rejected with exactly the sorted list of missing usernames and nothing
else happens, and if every registered username has an envelope
(exact match or superset) the message succeeds and the payload is
broadcast unmodified to all connections including the sender. -/
theorem C1_envelope_completeness (ks : KS) (tagf : TAG) (key : List Nat)
    (env : Env) (st : ServerState) (sid : String) (data : SendData)
    (sender : String) (member : PartInfo)
    (hs : data.«from» = some sender) (hne : sender ≠ "")
    (hm : alookup sender st.participants = some member) (hmsid : member.sid = sid) :
    ((∃ u ∈ akeys st.participants,
        (data.envelopes.getD []).any (fun e => e.1 = u) = false) →
      handle_send_message ks tagf key env st sid data
        = ⟨st, [.delivery_error (.only sid)
                  ("Missing envelopes for: "
                    ++ String.intercalate (", ") (missingOf st data))],
           .rejected ("Missing envelopes for: "
                    ++ String.intercalate (", ") (missingOf st data))⟩) ∧
    (missingOf st data).Sorted (· ≤ ·) ∧
    (missingOf st data).Perm
      ((akeys st.participants).filter
        (fun u => !((data.envelopes.getD []).any (fun e => e.1 = u)))) ∧
    ((∀ u ∈ akeys st.participants,
        (data.envelopes.getD []).any (fun e => e.1 = u) = true) →
      handle_send_message ks tagf key env st sid data
        = ⟨{ st with
               logs := store_encrypted_log ks tagf key env st.logs
                         (⟨sender, data.ciphertext, data.iv, data.timestamp,
                           data.envelopes.getD [], none⟩ : Payload) },
           [.receive_message .all
              (⟨sender, data.ciphertext, data.iv, data.timestamp,
                data.envelopes.getD [], none⟩ : Payload)],
           .ok⟩) := by
  refine ⟨?_, sortStrings_sorted _, sortStrings_perm _, ?_⟩
  · rintro ⟨u, hu, hmissing⟩
    have humem : u ∈ (akeys st.participants).filter
        (fun u => !((data.envelopes.getD []).any (fun e => e.1 = u))) :=
      List.mem_filter.mpr ⟨hu, by rw [hmissing]; rfl⟩
    have hne2 : missingOf st data ≠ [] := by
      intro hnil
      have := (sortStrings_perm _).symm.mem_iff.mp humem
      rw [show sortStrings ((akeys st.participants).filter
          (fun u => !((data.envelopes.getD []).any (fun e => e.1 = u))))
          = missingOf st data from rfl, hnil] at this
      exact List.not_mem_nil u this
    exact handle_send_reject_missing_env ks tagf key env st sid data sender member
      hs hne hm hmsid hne2
  · intro hall
    have hfil : (akeys st.participants).filter
        (fun u => !((data.envelopes.getD []).any (fun e => e.1 = u))) = [] := by
      rw [List.filter_eq_nil_iff]
      intro a ha
      rw [hall a ha]
      exact fun hc => Bool.noConfusion hc
    have hmiss : missingOf st data = [] := by
      unfold missingOf
      rw [hfil]
      rfl
    exact handle_send_success ks tagf key env st sid data sender member
      hs hne hm hmsid hmiss

/-- **C1, witness.** `alice` omitting `Bob`'s envelope is rejected with
the exact missing list; the reject leaves state unchanged. -/
theorem C1_witness :
    handle_send_message ksZero tagDemo [] envA stAB "s1" sdOnlyAlice
      = ⟨stAB, [.delivery_error (.only "s1") "Missing envelopes for: Bob"],
         .rejected "Missing envelopes for: Bob"⟩ := by
  have h := (C1_envelope_completeness ksZero tagDemo [] envA stAB "s1" sdOnlyAlice
      "alice" ⟨"AAAA", "fp-alice", "s1", 1⟩ rfl (by decide) (by decide) rfl).1
    ⟨"Bob", by decide, by decide⟩
  rw [h]
  decide

/-- The full shape of a register call that ends normally. -/
theorem handle_register_ok_spec (env : Env) (st : ServerState) (sid : String)
    (data : RegisterData)
    (hok : (handle_register env st sid data).outcome = .ok) :
    ∃ fp, compute_fingerprint (data.public_key.getD "") = some fp ∧
      ¬(pyStrip (data.username.getD "") = "" ∨ data.public_key = none
        ∨ data.public_key = some "") ∧
      ¬(pyStrip (data.username.getD "")).length < 2 ∧
      (∀ existing,
        alookup (pyStrip (data.username.getD "")) st.participants = some existing →
        existing.sid = sid) ∧
      handle_register env st sid data =
        ⟨⟨aset (pyStrip (data.username.getD ""))
            ⟨data.public_key.getD "", fp, sid, env.now⟩
            (remove_participant st sid).1.participants,
          aset sid (pyStrip (data.username.getD ""))
            (remove_participant st sid).1.sessions,
          (remove_participant st sid).1.logs⟩,
         (remove_participant st sid).2 ++
           [.register_success (.only sid) (pyStrip (data.username.getD "")) fp
              (participant_snapshot (aset (pyStrip (data.username.getD ""))
                ⟨data.public_key.getD "", fp, sid, env.now⟩
                (remove_participant st sid).1.participants)),
            .user_joined (.allExcept sid) (pyStrip (data.username.getD "")) fp,
            .participants .all
              (participant_snapshot (aset (pyStrip (data.username.getD ""))
                ⟨data.public_key.getD "", fp, sid, env.now⟩
                (remove_participant st sid).1.participants))],
         .ok⟩ := by
  by_cases h1 : (pyStrip (data.username.getD "") = "" ∨ data.public_key = none
      ∨ data.public_key = some "")
  · rw [handle_register_reject_missing env st sid data h1] at hok
    exact HandlerOutcome.noConfusion
      (show HandlerOutcome.rejected _ = .ok from hok)
  by_cases h2 : (pyStrip (data.username.getD "")).length < 2
  · rw [handle_register_reject_short env st sid data h1 h2] at hok
    exact HandlerOutcome.noConfusion
      (show HandlerOutcome.rejected _ = .ok from hok)
  have next : (∀ existing,
      alookup (pyStrip (data.username.getD "")) st.participants = some existing →
      existing.sid = sid) ∨
      (∃ existing, alookup (pyStrip (data.username.getD "")) st.participants
        = some existing ∧ existing.sid ≠ sid) := by
    cases hex : alookup (pyStrip (data.username.getD "")) st.participants with
    | none => exact .inl (fun e he => Option.noConfusion he)
    | some ex =>
        by_cases hsid : ex.sid = sid
        · exact .inl (fun e he => by
            injection he with hee
            subst hee
            exact hsid)
        · exact .inr ⟨ex, rfl, hsid⟩
  rcases next with h3 | ⟨ex, hex, hsid⟩
  · cases hfp : compute_fingerprint (data.public_key.getD "") with
    | none =>
        rw [handle_register_raised env st sid data h1 h2 h3 hfp] at hok
        exact HandlerOutcome.noConfusion (show HandlerOutcome.raised = .ok from hok)
    | some fp =>
        exact ⟨fp, rfl, h1, h2, h3,
          handle_register_success env st sid data _ fp rfl h1 h2 h3 hfp⟩
  · rw [handle_register_reject_conflict env st sid data ex h1 h2 hex hsid] at hok
    exact HandlerOutcome.noConfusion
      (show HandlerOutcome.rejected _ = .ok from hok)

/-- **C8, counterexample.** On departure the point event is *not*
delivered to the acting connection: `user_left` is emitted with
`include_self=False`, so the departing connection (still alive on an
explicit leave or a re-registration) never receives it, refuting
"delivered always on departure". -/
theorem C8_counterexample :
    (remove_participant stAB "s2").2
      = [.user_left (.allExcept "s2") "Bob" "fp-bob",
         .participants .all [⟨"alice", "fp-alice", "AAAA"⟩]] ∧
    deliversTo (.allExcept "s2") "s2" = false := by
  refine ⟨by decide, by decide⟩

/-- **C8 (amended).** After a successful removal the server emits the
`left` point event followed (never preceded) by the registry snapshot
to all connections, and after a successful registration it emits
`register_success` to the caller, then the `joined` point event, then
the snapshot to all; both point events are suppressed exactly for the
acting connection — on join *and* on departure alike. -/
theorem C8_point_event_before_snapshot (env : Env) (st : ServerState)
    (sid u : String) (info : PartInfo) (data : RegisterData) :
    (alookup sid st.sessions = some u → u ≠ "" →
      alookup u st.participants = some info →
      (remove_participant st sid).2
        = [.user_left (.allExcept sid) u info.fingerprint,
           .participants .all
             (participant_snapshot (remove_participant st sid).1.participants)] ∧
      deliversTo (.allExcept sid) sid = false ∧
      (∀ c, c ≠ sid → deliversTo (.allExcept sid) c = true)) ∧
    ((handle_register env st sid data).outcome = .ok →
      ∃ pre username fp,
        (handle_register env st sid data).events
          = pre ++
            [.register_success (.only sid) username fp
               (participant_snapshot
                 (handle_register env st sid data).state.participants),
             .user_joined (.allExcept sid) username fp,
             .participants .all
               (participant_snapshot
                 (handle_register env st sid data).state.participants)] ∧
        deliversTo (.allExcept sid) sid = false ∧
        (∀ c, c ≠ sid → deliversTo (.allExcept sid) c = true)) := by
  constructor
  · intro hs hne hpi
    have hre : remove_participant st sid =
        ({ st with participants := aerase u st.participants,
                   sessions := aerase sid st.sessions },
         [.user_left (.allExcept sid) u info.fingerprint,
          .participants .all (participant_snapshot (aerase u st.participants))]) := by
      simp only [remove_participant, hs, if_neg hne, hpi, broadcast_participants]
    rw [hre]
    refine ⟨rfl, by simp [deliversTo], fun c hc => by simp [deliversTo, hc]⟩
  · intro hok
    obtain ⟨fp, hfp, _, _, _, heq⟩ := handle_register_ok_spec env st sid data hok
    refine ⟨(remove_participant st sid).2, pyStrip (data.username.getD ""), fp, ?_,
      by simp [deliversTo], fun c hc => by simp [deliversTo, hc]⟩
    rw [heq]

/-- **C8, witness.** The two emissions of a concrete removal, in order:
point event first, snapshot second. -/
theorem C8_witness :
    (remove_participant stAB "s2").2
      = [.user_left (.allExcept "s2") "Bob" "fp-bob",
         .participants .all
           (participant_snapshot (remove_participant stAB "s2").1.participants)] :=
  ((C8_point_event_before_snapshot envA stAB "s2" "Bob" ⟨"AA==", "fp-bob", "s2", 1⟩
      rdBadKey).1 (by decide) (by decide) (by decide)).1

/-- **C5.** Registering `username` from a connection bound to a
different name `A`: the handler first removes `A`'s record and binding
(emitting `A`'s `left` notification before anything about the new
name), only then installs the new record; the final state contains the
new name but not `A`, and no snapshot emitted during the call contains
`A` at all — so at no observable point are both identities present. -/
theorem C5_reregistration (env : Env) (st : ServerState) (sid : String)
    (data : RegisterData) (A username fp : String) (infoA : PartInfo)
    (hu : pyStrip (data.username.getD "") = username)
    (hbound : alookup sid st.sessions = some A)
    (hAne : A ≠ "")
    (hpiA : alookup A st.participants = some infoA)
    (hAB : A ≠ username)
    (h1 : ¬(username = "" ∨ data.public_key = none ∨ data.public_key = some ""))
    (h2 : ¬username.length < 2)
    (h3 : ∀ existing, alookup username st.participants = some existing →
      existing.sid = sid)
    (h4 : compute_fingerprint (data.public_key.getD "") = some fp) :
    handle_register env st sid data =
      ⟨⟨aset username ⟨data.public_key.getD "", fp, sid, env.now⟩
          (aerase A st.participants),
        aset sid username (aerase sid st.sessions),
        st.logs⟩,
       [.user_left (.allExcept sid) A infoA.fingerprint,
        .participants .all (participant_snapshot (aerase A st.participants)),
        .register_success (.only sid) username fp
          (participant_snapshot (aset username
            ⟨data.public_key.getD "", fp, sid, env.now⟩ (aerase A st.participants))),
        .user_joined (.allExcept sid) username fp,
        .participants .all
          (participant_snapshot (aset username
            ⟨data.public_key.getD "", fp, sid, env.now⟩
            (aerase A st.participants)))],
       .ok⟩ ∧
    alookup username (aset username ⟨data.public_key.getD "", fp, sid, env.now⟩
        (aerase A st.participants))
      = some ⟨data.public_key.getD "", fp, sid, env.now⟩ ∧
    alookup A (aset username ⟨data.public_key.getD "", fp, sid, env.now⟩
        (aerase A st.participants)) = none ∧
    A ∉ (participant_snapshot (aerase A st.participants)).map
        SnapshotEntry.username ∧
    A ∉ (participant_snapshot (aset username
        ⟨data.public_key.getD "", fp, sid, env.now⟩
        (aerase A st.participants))).map SnapshotEntry.username := by
  have hre : remove_participant st sid =
      ({ st with participants := aerase A st.participants,
                 sessions := aerase sid st.sessions },
       [.user_left (.allExcept sid) A infoA.fingerprint,
        .participants .all (participant_snapshot (aerase A st.participants))]) := by
    simp only [remove_participant, hbound, if_neg hAne, hpiA, broadcast_participants]
  have hAerased : alookup A (aerase A st.participants) = none := by
    rw [alookup_aerase, if_pos rfl]
  have hAset : alookup A (aset username ⟨data.public_key.getD "", fp, sid, env.now⟩
      (aerase A st.participants)) = none := by
    rw [alookup_aset, if_neg hAB, hAerased]
  refine ⟨?_, ?_, hAset, ?_, ?_⟩
  · rw [handle_register_success env st sid data username fp hu h1 h2 h3 h4, hre]
    rfl
  · rw [alookup_aset, if_pos rfl]
  · intro hmem
    exact (alookup_none_not_mem_akeys A _).mp hAerased
      ((mem_snapshot_iff _ A).mp hmem)
  · intro hmem
    exact (alookup_none_not_mem_akeys A _).mp hAset
      ((mem_snapshot_iff _ A).mp hmem)

/-- **C5, witness.** `s1` re-registers from `alice` to `bob`: the final
registry has `bob` and no `alice`. -/
theorem C5_witness :
    alookup "bob" (aset "bob" ⟨"AA==", fpAA, "s1", envA.now⟩
        (aerase "alice" stA.participants))
      = some ⟨"AA==", fpAA, "s1", envA.now⟩ ∧
    alookup "alice" (aset "bob" ⟨"AA==", fpAA, "s1", envA.now⟩
        (aerase "alice" stA.participants)) = none := by
  have h := C5_reregistration envA stA "s1" rdBob "alice" "bob" fpAA
    ⟨"AAAA", "fp-alice", "s1", 1⟩ (by decide) (by decide) (by decide) (by decide)
    (by decide) (by decide) (by decide)
    (by
      intro e he
      rw [show alookup ("bob") stA.participants = none from by decide] at he
      exact Option.noConfusion he)
    (by decide)
  exact ⟨h.2.1, h.2.2.1⟩

/-! ## The registry invariant (C2) -/

theorem inv_emptyState : RegistryInv emptyState := by
  refine ⟨List.nodup_nil, List.nodup_nil, ?_, ?_⟩
  · intro cid u
    constructor
    · intro h
      exact Option.noConfusion h
    · rintro ⟨info, hinfo, _⟩
      exact Option.noConfusion hinfo
  · intro cid u h
    exact Option.noConfusion h

theorem register_preserves_inv (env : Env) (st : ServerState) (sid : String)
    (data : RegisterData) (hInv : RegistryInv st) :
    RegistryInv (handle_register env st sid data).state := by
  rcases handle_register_shapes env st sid data with ⟨m, hsh⟩ | hsh | hsh
  · rw [hsh]
    exact hInv
  · rw [hsh]
    exact hInv
  · obtain ⟨fp, hfp, h1, h2, h3, heq⟩ := handle_register_ok_spec env st sid data hsh
    obtain ⟨hInv1, hlogs1, hsid1, hsess1, hpart1, _⟩ := remove_participant_spec st sid hInv
    have hnone : alookup (pyStrip (data.username.getD ""))
        (remove_participant st sid).1.participants = none := by
      rw [hpart1 (pyStrip (data.username.getD ""))]
      by_cases hcase : alookup sid st.sessions = some (pyStrip (data.username.getD ""))
      · rw [if_pos hcase]
      · rw [if_neg hcase]
        cases hex : alookup (pyStrip (data.username.getD "")) st.participants with
        | none => rfl
        | some ex =>
            have hexsid := h3 ex hex
            have := (hInv.2.2.1 sid (pyStrip (data.username.getD ""))).mpr
              ⟨ex, hex, hexsid⟩
            exact absurd this hcase
    obtain ⟨hnp1, hns1, hcorr1, hlen1⟩ := hInv1
    have hmain : RegistryInv
        ⟨aset (pyStrip (data.username.getD ""))
           ⟨data.public_key.getD "", fp, sid, env.now⟩
           (remove_participant st sid).1.participants,
         aset sid (pyStrip (data.username.getD ""))
           (remove_participant st sid).1.sessions,
         (remove_participant st sid).1.logs⟩ := by
      refine ⟨nodup_akeys_aset _ _ _ hnp1, nodup_akeys_aset _ _ _ hns1, ?_, ?_⟩
      · intro cid u'
        show alookup cid (aset sid (pyStrip (data.username.getD ""))
            (remove_participant st sid).1.sessions) = some u' ↔ _
        rw [alookup_aset]
        constructor
        · intro h
          by_cases hc : cid = sid
          · rw [if_pos hc] at h
            injection h with hh
            subst hh
            exact ⟨⟨data.public_key.getD "", fp, sid, env.now⟩,
              by rw [alookup_aset, if_pos rfl], hc.symm⟩
          · rw [if_neg hc] at h
            obtain ⟨info', hpi', hsid'⟩ := (hcorr1 cid u').mp h
            have hu'ne : u' ≠ pyStrip (data.username.getD "") := by
              intro he
              rw [he, hnone] at hpi'
              exact Option.noConfusion hpi'
            exact ⟨info', by rw [alookup_aset, if_neg hu'ne]; exact hpi', hsid'⟩
        · rintro ⟨info', hpi', hsid'⟩
          rw [alookup_aset] at hpi'
          by_cases hu' : u' = pyStrip (data.username.getD "")
          · rw [if_pos hu'] at hpi'
            injection hpi' with hh
            have hcs : sid = cid := by
              rw [← hsid', ← hh]
            rw [if_pos hcs.symm, hu']
          · rw [if_neg hu'] at hpi'
            have hs1 := (hcorr1 cid u').mpr ⟨info', hpi', hsid'⟩
            have hc : cid ≠ sid := by
              intro he
              rw [he, hsid1] at hs1
              exact Option.noConfusion hs1
            rw [if_neg hc]
            exact hs1
      · intro cid u' h
        have h' : alookup cid (aset sid (pyStrip (data.username.getD ""))
            (remove_participant st sid).1.sessions) = some u' := h
        rw [alookup_aset] at h'
        by_cases hc : cid = sid
        · rw [if_pos hc] at h'
          injection h' with hh
          subst hh
          omega
        · rw [if_neg hc] at h'
          exact hlen1 cid u' h'
    rw [heq]
    exact hmain

/-- **C2.** After every sequence of register/remove operations starting
from the empty state: at most one IdentityRecord per username, at most
one binding per connection handle, the binding map and the registry
mutually consistent (`sessions[cid] = u` iff `registry[u].sid = cid`),
and the binding map injective over active bindings. -/
theorem C2_registry_invariant (ops : List RegOp) :
    (akeys (runOps ops).participants).Nodup ∧
    (akeys (runOps ops).sessions).Nodup ∧
    (∀ cid u, alookup cid (runOps ops).sessions = some u ↔
      ∃ info, alookup u (runOps ops).participants = some info ∧ info.sid = cid) ∧
    (∀ cid cid' u, alookup cid (runOps ops).sessions = some u →
      alookup cid' (runOps ops).sessions = some u → cid = cid') := by
  have hfold : ∀ (l : List RegOp) (st : ServerState), RegistryInv st →
      RegistryInv (l.foldl applyOp st) := by
    intro l
    induction l with
    | nil => intro st h; exact h
    | cons op rest ih =>
        intro st h
        refine ih _ ?_
        cases op with
        | reg sid env data => exact register_preserves_inv env st sid data h
        | rem sid => exact (remove_participant_spec st sid h).1
  have hrun : RegistryInv (runOps ops) := hfold ops emptyState inv_emptyState
  obtain ⟨hnp, hns, hcorr, hlen⟩ := hrun
  refine ⟨hnp, hns, hcorr, ?_⟩
  intro cid cid' u h h'
  obtain ⟨i1, hp1, hs1⟩ := (hcorr cid u).mp h
  obtain ⟨i2, hp2, hs2⟩ := (hcorr cid' u).mp h'
  rw [hp1] at hp2
  injection hp2 with hh
  rw [← hs1, ← hs2, hh]

/-- **C2, witness.** The invariant at the end of a concrete
register/register/remove run. -/
theorem C2_witness :
    (akeys (runOps [RegOp.reg "s1" envA ⟨some "alice", some "AAAA"⟩,
       RegOp.reg "s2" envA rdBob, RegOp.rem "s1"]).participants).Nodup :=
  (C2_registry_invariant _).1

/-! ## Shape of SHA-256 digests and fingerprints (C7) -/

theorem shaRound_length (st : List Nat) (kw : Nat × Nat) :
    (shaRound st kw).length = st.length := by
  unfold shaRound
  split <;> rfl

theorem foldl_shaRound_length (l : List (Nat × Nat)) (st : List Nat) :
    (l.foldl shaRound st).length = st.length := by
  induction l generalizing st with
  | nil => rfl
  | cons kw rest ih => rw [List.foldl_cons, ih, shaRound_length]

theorem shaCompress_length (h block : List Nat) :
    (shaCompress h block).length = h.length := by
  unfold shaCompress
  rw [List.length_map, List.length_zip, foldl_shaRound_length]
  omega

theorem shaLoop_length (fuel : Nat) (h bytes : List Nat) :
    (shaLoop fuel h bytes).length = h.length := by
  induction fuel generalizing h bytes with
  | zero => rfl
  | succ n ih =>
      unfold shaLoop
      by_cases he : bytes.isEmpty
      · rw [if_pos he]
      · rw [if_neg he, ih, shaCompress_length]

theorem foldr_beBytes4_length (l : List Nat) :
    (l.foldr (fun w acc => beBytes4 w ++ acc) []).length = 4 * l.length := by
  induction l with
  | nil => rfl
  | cons w rest ih =>
      rw [List.foldr_cons, List.length_append, ih, List.length_cons]
      have h4 : (beBytes4 w).length = 4 := rfl
      rw [h4]
      omega

theorem mem_beBytes4_lt (n b : Nat) (h : b ∈ beBytes4 n) : b < 256 := by
  simp only [beBytes4, List.mem_cons, List.not_mem_nil, or_false] at h
  rcases h with h | h | h | h <;> subst h <;> exact Nat.mod_lt _ (by omega)

theorem foldr_beBytes4_lt (l : List Nat) (b : Nat)
    (h : b ∈ l.foldr (fun w acc => beBytes4 w ++ acc) []) : b < 256 := by
  induction l with
  | nil => simp at h
  | cons w rest ih =>
      rw [List.foldr_cons, List.mem_append] at h
      rcases h with h | h
      · exact mem_beBytes4_lt w b h
      · exact ih h

theorem sha256_length (msg : List Nat) : (sha256 msg).length = 32 := by
  unfold sha256
  rw [foldr_beBytes4_length, shaLoop_length]
  rfl

theorem sha256_bytes_lt (msg : List Nat) (b : Nat) (h : b ∈ sha256 msg) :
    b < 256 := by
  unfold sha256 at h
  exact foldr_beBytes4_lt _ b h

theorem hexDigitChar_mem (n : Nat) :
    hexDigitChar n ∈ (['0', '1', '2', '3', '4', '5', '6', '7', '8', '9'] ++
      ['a', 'b', 'c', 'd', 'e', 'f']) := by
  unfold hexDigitChar
  split <;> decide

theorem toHex_data (bytes : List Nat) :
    (toHex bytes).data
      = bytes.foldr (fun b acc => hexDigitChar (b / 16) :: hexDigitChar (b % 16) :: acc) [] :=
  rfl

theorem toHex_length (bytes : List Nat) :
    (toHex bytes).data.length = 2 * bytes.length := by
  rw [toHex_data]
  induction bytes with
  | nil => rfl
  | cons b rest ih =>
      simp only [List.foldr_cons, List.length_cons, ih]
      omega

theorem toHex_chars_hex (bytes : List Nat) (c : Char)
    (h : c ∈ (toHex bytes).data) :
    c ∈ (['0', '1', '2', '3', '4', '5', '6', '7', '8', '9'] ++
      ['a', 'b', 'c', 'd', 'e', 'f']) := by
  rw [toHex_data] at h
  induction bytes with
  | nil => simp at h
  | cons b rest ih =>
      rw [List.foldr_cons] at h
      rcases List.mem_cons.mp h with h | h
      · rw [h]
        exact hexDigitChar_mem _
      · rcases List.mem_cons.mp h with h | h
        · rw [h]
          exact hexDigitChar_mem _
        · exact ih h

theorem chunkPairs_spec : ∀ (l : List Char), l.length % 2 = 0 →
    (chunkPairs l).length = l.length / 2 ∧
    ∀ g ∈ chunkPairs l, g.data.length = 2 ∧ ∀ c ∈ g.data, c ∈ l
  | [], _ => by simp [chunkPairs]
  | [c], h => by simp at h
  | c1 :: c2 :: rest, h => by
      have hr : rest.length % 2 = 0 := by
        simp only [List.length_cons] at h
        omega
      obtain ⟨hlen, hmem⟩ := chunkPairs_spec rest hr
      constructor
      · show (chunkPairs (c1 :: c2 :: rest)).length = (c1 :: c2 :: rest).length / 2
        have : chunkPairs (c1 :: c2 :: rest) = String.mk [c1, c2] :: chunkPairs rest := rfl
        rw [this, List.length_cons, hlen]
        simp only [List.length_cons]
        omega
      · intro g hg
        have : chunkPairs (c1 :: c2 :: rest) = String.mk [c1, c2] :: chunkPairs rest := rfl
        rw [this] at hg
        rcases List.mem_cons.mp hg with hg | hg
        · subst hg
          refine ⟨rfl, ?_⟩
          intro c hc
          rcases List.mem_cons.mp hc with hc | hc
          · rw [hc]; exact List.mem_cons_self c1 _
          · rcases List.mem_cons.mp hc with hc | hc
            · rw [hc]
              exact List.mem_cons.mpr (.inr (List.mem_cons_self c2 _))
            · simp at hc
        · obtain ⟨hg2, hgmem⟩ := hmem g hg
          exact ⟨hg2, fun c hc =>
            List.mem_cons.mpr (.inr (List.mem_cons.mpr (.inr (hgmem c hc))))⟩

/-- **C7.** The fingerprint function fails exactly when the input is not
valid base64; it depends only on the decoded public-key bytes (identical
bytes always give an identical fingerprint); and on success it returns
the SHA-256 digest of the raw bytes as 32 colon-separated groups of two
lowercase hex characters. -/
theorem C7_fingerprint_deterministic (s s₁ s₂ fp : String) :
    (compute_fingerprint s = none ↔ b64decode s = none) ∧
    (b64decode s₁ = b64decode s₂ →
      compute_fingerprint s₁ = compute_fingerprint s₂) ∧
    (compute_fingerprint s = some fp →
      ∃ der, b64decode s = some der ∧
        fp = String.intercalate (":") (chunkPairs (toHex (sha256 der)).data) ∧
        (chunkPairs (toHex (sha256 der)).data).length = 32 ∧
        ∀ g ∈ chunkPairs (toHex (sha256 der)).data,
          g.data.length = 2 ∧ ∀ c ∈ g.data,
            c ∈ (['0', '1', '2', '3', '4', '5', '6', '7', '8', '9'] ++
              ['a', 'b', 'c', 'd', 'e', 'f'])) := by
  refine ⟨?_, ?_, ?_⟩
  · unfold compute_fingerprint
    cases h : b64decode s <;> simp [h]
  · intro h
    unfold compute_fingerprint
    rw [h]
  · intro h
    unfold compute_fingerprint at h
    cases hd : b64decode s with
    | none => rw [hd] at h; exact Option.noConfusion h
    | some der =>
        rw [hd] at h
        injection h with hfp
        have heven : (toHex (sha256 der)).data.length % 2 = 0 := by
          rw [toHex_length, sha256_length]
        obtain ⟨hlen, hmem⟩ := chunkPairs_spec (toHex (sha256 der)).data heven
        refine ⟨der, rfl, hfp.symm, ?_, ?_⟩
        · rw [hlen, toHex_length, sha256_length]
        · intro g hg
          obtain ⟨hg2, hgc⟩ := hmem g hg
          exact ⟨hg2, fun c hc => toHex_chars_hex _ c (hgc c hc)⟩

/-- **C7, witness.** Two distinct base64 spellings of the same
public-key bytes (Python discards the blank) give the same fingerprint. -/
theorem C7_witness :
    compute_fingerprint ("A A==") = compute_fingerprint ("AA==") :=
  (C7_fingerprint_deterministic ("x") ("A A==") ("AA==") ("y")).2.1 (by decide)

/-! ## Base64 round trip (C6) -/

theorem b64digit_b64char : ∀ v, v < 64 → b64digit (b64char v) = some v := by decide

theorem b64char_ne_pad : ∀ v, v < 64 → b64char v ≠ '=' := by decide

theorem b64loop_data_step (v : Nat) (hv : v < 64) (rest : List Char)
    (quad : List Nat) (pads : Nat) (out : List Nat) :
    b64loop (b64char v :: rest) quad pads out
      = (match quad with
         | [v0, v1, v2] => b64loop rest [] 0 (out ++ emit3 v0 v1 v2 v)
         | _ => b64loop rest (quad ++ [v]) 0 out) := by
  simp only [b64loop]
  rw [if_neg (b64char_ne_pad v hv), b64digit_b64char v hv]

theorem b64loop_pad_step (rest : List Char) (quad : List Nat) (pads : Nat)
    (out : List Nat) :
    b64loop ('=' :: rest) quad pads out
      = if 2 ≤ quad.length ∧ 4 ≤ quad.length + (pads + 1)
        then some (out ++ emitPartial quad)
        else b64loop rest quad (pads + 1) out := by
  simp only [b64loop]
  rw [if_pos trivial]

theorem b64loop_enc : ∀ (bs out : List Nat), (∀ b ∈ bs, b < 256) →
    b64loop (b64encodeList bs) [] 0 out = some (out ++ bs)
  | [], out, _ => by simp [b64encodeList, b64loop]
  | [b0], out, h => by
      have hb0 : b0 < 256 := h b0 (by simp)
      rw [show b64encodeList [b0]
          = [b64char (b0 / 4), b64char (b0 % 4 * 16), '=', '='] from rfl]
      rw [b64loop_data_step (b0 / 4) (by omega) _ [] 0 out]
      rw [b64loop_data_step (b0 % 4 * 16) (by omega) _ _ 0 out]
      show b64loop ('=' :: ['=']) [b0 / 4, b0 % 4 * 16] 0 out = some (out ++ [b0])
      rw [b64loop_pad_step, if_neg (by simp)]
      rw [b64loop_pad_step, if_pos (by simp)]
      have harith : b0 / 4 * 4 + b0 % 4 * 16 / 16 = b0 := by omega
      show some (out ++ [b0 / 4 * 4 + b0 % 4 * 16 / 16]) = some (out ++ [b0])
      rw [harith]
  | [b0, b1], out, h => by
      have hb0 : b0 < 256 := h b0 (by simp)
      have hb1 : b1 < 256 := h b1 (by simp)
      rw [show b64encodeList [b0, b1]
          = [b64char (b0 / 4), b64char (b0 % 4 * 16 + b1 / 16),
             b64char (b1 % 16 * 4), '='] from rfl]
      rw [b64loop_data_step (b0 / 4) (by omega) _ [] 0 out]
      rw [b64loop_data_step (b0 % 4 * 16 + b1 / 16) (by omega) _ _ 0 out]
      rw [b64loop_data_step (b1 % 16 * 4) (by omega) _ _ 0 out]
      show b64loop ('=' :: []) [b0 / 4, b0 % 4 * 16 + b1 / 16, b1 % 16 * 4] 0 out
        = some (out ++ [b0, b1])
      rw [b64loop_pad_step, if_pos (by simp)]
      have e1 : b0 / 4 * 4 + (b0 % 4 * 16 + b1 / 16) / 16 = b0 := by omega
      have e2 : (b0 % 4 * 16 + b1 / 16) % 16 * 16 + b1 % 16 * 4 / 4 = b1 := by omega
      show some (out ++ [b0 / 4 * 4 + (b0 % 4 * 16 + b1 / 16) / 16,
        (b0 % 4 * 16 + b1 / 16) % 16 * 16 + b1 % 16 * 4 / 4]) = some (out ++ [b0, b1])
      rw [e1, e2]
  | b0 :: b1 :: b2 :: rest, out, h => by
      have hb0 : b0 < 256 := h b0 (by simp)
      have hb1 : b1 < 256 := h b1 (by simp)
      have hb2 : b2 < 256 := h b2 (by simp)
      have ih := b64loop_enc rest (out ++ [b0, b1, b2])
        (fun b hb => h b (by simp [hb]))
      rw [show b64encodeList (b0 :: b1 :: b2 :: rest)
          = b64char (b0 / 4) :: b64char (b0 % 4 * 16 + b1 / 16)
            :: b64char (b1 % 16 * 4 + b2 / 64) :: b64char (b2 % 64)
            :: b64encodeList rest from rfl]
      rw [b64loop_data_step (b0 / 4) (by omega) _ [] 0 out]
      rw [b64loop_data_step (b0 % 4 * 16 + b1 / 16) (by omega) _ _ 0 out]
      rw [b64loop_data_step (b1 % 16 * 4 + b2 / 64) (by omega) _ _ 0 out]
      rw [b64loop_data_step (b2 % 64) (by omega) _ _ 0 out]
      have e1 : b0 / 4 * 4 + (b0 % 4 * 16 + b1 / 16) / 16 = b0 := by omega
      have e2 : (b0 % 4 * 16 + b1 / 16) % 16 * 16 + (b1 % 16 * 4 + b2 / 64) / 4 = b1 := by
        omega
      have e3 : (b1 % 16 * 4 + b2 / 64) % 4 * 64 + b2 % 64 = b2 := by omega
      show b64loop (b64encodeList rest) [] 0
          (out ++ [b0 / 4 * 4 + (b0 % 4 * 16 + b1 / 16) / 16,
            (b0 % 4 * 16 + b1 / 16) % 16 * 16 + (b1 % 16 * 4 + b2 / 64) / 4,
            (b1 % 16 * 4 + b2 / 64) % 4 * 64 + b2 % 64])
        = some (out ++ (b0 :: b1 :: b2 :: rest))
      rw [e1, e2, e3, ih]
      congr 1
      simp

theorem b64decode_b64encode (bs : List Nat) (h : ∀ b ∈ bs, b < 256) :
    b64decode (b64encode bs) = some bs := by
  unfold b64decode b64encode
  rw [show (String.mk (b64encodeList bs)).data = b64encodeList bs from rfl]
  have := b64loop_enc bs [] h
  rw [this]
  rfl

/-! ## AEAD round trip (C6) -/

theorem zipWith_xor_cancel (pt ks : List Nat) (hlen : ks.length = pt.length) :
    (pt.zipWith (fun a b => a ^^^ b) ks).zipWith (fun a b => a ^^^ b) ks = pt := by
  induction pt generalizing ks with
  | nil => cases ks <;> rfl
  | cons p ps ih =>
      cases ks with
      | nil => simp at hlen
      | cons k ktail =>
          simp only [List.zipWith_cons_cons]
          rw [ih ktail (by simpa using hlen)]
          rw [Nat.xor_assoc, Nat.xor_self, Nat.xor_zero]

theorem aeadDecrypt_append (ks : KS) (tagf : TAG) (key nonce ct tag : List Nat)
    (htlen : tag.length = 16) (htageq : tagf key nonce ct = tag) :
    aeadDecrypt ks tagf key nonce (ct ++ tag)
      = some (ct.zipWith (fun a b => a ^^^ b) (ks key nonce ct.length)) := by
  simp only [aeadDecrypt]
  have hlen : (ct ++ tag).length = ct.length + 16 := by
    rw [List.length_append, htlen]
  rw [hlen]
  rw [if_neg (by omega)]
  have hsub : ct.length + 16 - 16 = ct.length := by omega
  rw [hsub, List.take_left, List.drop_left, if_pos htageq]

theorem aead_roundtrip (ks : KS) (tagf : TAG) (key nonce pt : List Nat)
    (hks : (ks key nonce pt.length).length = pt.length)
    (htag : (tagf key nonce
      (pt.zipWith (fun a b => a ^^^ b) (ks key nonce pt.length))).length = 16) :
    aeadDecrypt ks tagf key nonce (aeadEncrypt ks tagf key nonce pt) = some pt := by
  have henc : aeadEncrypt ks tagf key nonce pt
      = pt.zipWith (fun a b => a ^^^ b) (ks key nonce pt.length)
        ++ tagf key nonce (pt.zipWith (fun a b => a ^^^ b) (ks key nonce pt.length)) :=
    rfl
  have hctlen : (pt.zipWith (fun a b => a ^^^ b) (ks key nonce pt.length)).length
      = pt.length := by
    rw [List.length_zipWith, hks]
    omega
  rw [henc, aeadDecrypt_append ks tagf key nonce _ _ htag rfl, hctlen,
    zipWith_xor_cancel pt (ks key nonce pt.length) hks]

/-- The tag check guards every release of plaintext: decryption returns
a plaintext only when the recomputed tag equals the stored one. -/
theorem aeadDecrypt_fails_closed (ks : KS) (tagf : TAG)
    (key nonce data pt : List Nat)
    (h : aeadDecrypt ks tagf key nonce data = some pt) :
    tagf key nonce (data.take (data.length - 16)) = data.drop (data.length - 16) := by
  unfold aeadDecrypt at h
  by_cases h16 : data.length < 16
  · rw [if_pos h16] at h
    exact Option.noConfusion h
  · rw [if_neg h16] at h
    by_cases htag : tagf key nonce (data.take (data.length - 16))
        = data.drop (data.length - 16)
    · exact htag
    · rw [if_neg htag] at h
      exact Option.noConfusion h

/-! ## ASCII shape of the canonical JSON (C6) -/

theorem hexDigitChar_ascii (n : Nat) : (hexDigitChar n).toNat < 128 := by
  unfold hexDigitChar
  split <;> decide

theorem hex4_ascii (n : Nat) (c : Char) (h : c ∈ hex4 n) : c.toNat < 128 := by
  simp only [hex4, List.mem_cons, List.not_mem_nil, or_false] at h
  rcases h with h | h | h | h <;> rw [h] <;> exact hexDigitChar_ascii _

theorem uEscape_ascii (n : Nat) (c : Char) (h : c ∈ uEscape n) : c.toNat < 128 := by
  unfold uEscape at h
  by_cases hn : n < 65536
  · rw [if_pos hn] at h
    rcases List.mem_cons.mp h with h | h
    · rw [h]; decide
    · rcases List.mem_cons.mp h with h | h
      · rw [h]; decide
      · exact hex4_ascii _ c h
  · rw [if_neg hn] at h
    simp only [List.cons_append, List.mem_cons, List.mem_append] at h
    rcases h with h | h | h | h | h | h <;>
      first
        | (rw [h]; decide)
        | exact hex4_ascii _ c h

theorem jsonEscapeChar_ascii (c d : Char) (h : d ∈ jsonEscapeChar c) :
    d.toNat < 128 := by
  unfold jsonEscapeChar at h
  split_ifs at h with h1 h2 h3 h4 h5 h6 h7 h8
  all_goals first
    | (rcases List.mem_cons.mp h with hh | hh
       · rw [hh]; decide
       · rcases List.mem_cons.mp hh with hh | hh
         · rw [hh]; decide
         · simp at hh)
    | exact uEscape_ascii _ d h
    | (rcases List.mem_cons.mp h with hh | hh
       · rw [hh]; omega
       · simp at hh)

theorem escList_ascii : ∀ (l : List Char) (c : Char),
    c ∈ l.foldr (fun c acc => jsonEscapeChar c ++ acc) [] → c.toNat < 128
  | [], c, h => by simp at h
  | d :: rest, c, h => by
      rw [List.foldr_cons, List.mem_append] at h
      rcases h with h | h
      · exact jsonEscapeChar_ascii d c h
      · exact escList_ascii rest c h

theorem escString_ascii (s : String) (c : Char) (h : c ∈ escString s) :
    c.toNat < 128 := by
  unfold escString at h
  exact escList_ascii s.data c h

theorem jsonString_ascii (s : String) (c : Char) (h : c ∈ jsonString s) :
    c.toNat < 128 := by
  unfold jsonString at h
  rcases List.mem_cons.mp h with h | h
  · rw [h]; decide
  · rw [List.mem_append] at h
    rcases h with h | h
    · exact escString_ascii s c h
    · rcases List.mem_cons.mp h with h | h
      · rw [h]; decide
      · simp at h

theorem jsonOptString_ascii (o : Option String) (c : Char)
    (h : c ∈ jsonOptString o) : c.toNat < 128 := by
  cases o with
  | none =>
      simp only [jsonOptString, List.mem_cons, List.not_mem_nil, or_false] at h
      rcases h with h | h | h | h <;> rw [h] <;> decide
  | some s => exact jsonString_ascii s c h

theorem jsonEnvItems_ascii : ∀ (l : List (String × String)) (c : Char),
    c ∈ jsonEnvItems l → c.toNat < 128
  | [], c, h => by simp [jsonEnvItems] at h
  | [(k, v)], c, h => by
      unfold jsonEnvItems at h
      simp only [List.mem_append, List.mem_cons] at h
      rcases h with h | h | h
      · exact jsonString_ascii k c h
      · rw [h]; decide
      · exact jsonString_ascii v c h
  | (k, v) :: p :: tail, c, h => by
      unfold jsonEnvItems at h
      simp only [List.mem_append, List.mem_cons] at h
      rcases h with (h | h | h) | h | h
      · exact jsonString_ascii k c h
      · rw [h]; decide
      · exact jsonString_ascii v c h
      · rw [h]; decide
      · exact jsonEnvItems_ascii (p :: tail) c h

theorem jsonEnvelopes_ascii (l : List (String × String)) (c : Char)
    (h : c ∈ jsonEnvelopes l) : c.toNat < 128 := by
  unfold jsonEnvelopes at h
  rcases List.mem_cons.mp h with h | h
  · rw [h]; decide
  · rw [List.mem_append] at h
    rcases h with h | h
    · exact jsonEnvItems_ascii l c h
    · rcases List.mem_cons.mp h with h | h
      · rw [h]; decide
      · simp at h

theorem lit_ascii (s : String) (hs : ∀ c ∈ s.data, c.toNat < 128)
    (c : Char) (h : c ∈ s.data) : c.toNat < 128 := hs c h

theorem serializePayload_ascii (p : Payload) (c : Char)
    (h : c ∈ serializePayload p) : c.toNat < 128 := by
  unfold serializePayload at h
  simp only [List.append_assoc, List.mem_append] at h
  rcases h with h | h | h | h | h | h | h | h | h | h | h | h
  · exact lit_ascii _ (by decide) c h
  · exact jsonString_ascii _ c h
  · exact lit_ascii _ (by decide) c h
  · exact jsonOptString_ascii _ c h
  · exact lit_ascii _ (by decide) c h
  · exact jsonOptString_ascii _ c h
  · exact lit_ascii _ (by decide) c h
  · exact jsonOptString_ascii _ c h
  · exact lit_ascii _ (by decide) c h
  · exact jsonEnvelopes_ascii _ c h
  · cases hsa : p.stored_at with
    | none =>
        rw [hsa] at h
        simp at h
    | some s =>
        rw [hsa] at h
        rw [List.mem_append] at h
        rcases h with h | h
        · exact lit_ascii _ (by decide) c h
        · exact jsonString_ascii _ c h
  · rcases List.mem_singleton.mp h with rfl
    decide

/-- `.decode()` inverts `.encode()` on our byte strings. -/
theorem bytesStr_strBytes (s : String) : bytesStr (strBytes s) = s := by
  unfold bytesStr strBytes
  rw [List.map_map]
  have : ∀ l : List Char, l.map (Char.ofNat ∘ Char.toNat) = l := by
    intro l
    induction l with
    | nil => rfl
    | cons c rest ih =>
        rw [List.map_cons, ih, Function.comp_apply, Char.ofNat_toNat]
  rw [this]

theorem xor_byte_lt (a b : Nat) (ha : a < 256) (hb : b < 256) : a ^^^ b < 256 :=
  Nat.xor_lt_two_pow (n := 8) ha hb

/-! ## `json.loads` inverts the canonical serializer (C6) -/

theorem parseLit_append : ∀ (lit rest : List Char),
    parseLit lit (lit ++ rest) = some rest
  | [], _ => rfl
  | c :: cs, rest => by
      show (if c = c then parseLit cs (cs ++ rest) else none) = some rest
      rw [if_pos rfl, parseLit_append cs rest]

theorem hexVal_hexDigitChar : ∀ d, d < 16 → hexVal (hexDigitChar d) = some d := by
  decide

theorem char_valid_ranges (c : Char) :
    c.toNat < 55296 ∨ (57343 < c.toNat ∧ c.toNat < 1114112) := c.valid

theorem parseHex4_hex4 (n : Nat) (hn : n < 65536) (rest : List Char) :
    parseHex4 (hex4 n ++ rest) = some (n, rest) := by
  show parseHex4 (hexDigitChar (n / 4096 % 16) :: hexDigitChar (n / 256 % 16)
    :: hexDigitChar (n / 16 % 16) :: hexDigitChar (n % 16) :: rest) = some (n, rest)
  simp only [parseHex4, hexVal_hexDigitChar (n / 4096 % 16) (by omega),
    hexVal_hexDigitChar (n / 256 % 16) (by omega),
    hexVal_hexDigitChar (n / 16 % 16) (by omega),
    hexVal_hexDigitChar (n % 16) (by omega)]
  have harith : n / 4096 % 16 * 4096 + n / 256 % 16 * 256 + n / 16 % 16 * 16 + n % 16
      = n := by omega
  rw [harith]

/-- The unicode-escape branch of the string-body parser, unfolded once. -/
theorem parseJStringBody_unicode (fuel : Nat) (rest1 : List Char) :
    parseJStringBody (fuel + 1) ('\\' :: 'u' :: rest1)
      = match parseHex4 rest1 with
        | none => none
        | some (n, rest2) =>
            if 55296 ≤ n ∧ n < 56320 then
              match rest2 with
              | '\\' :: 'u' :: rest3 =>
                  match parseHex4 rest3 with
                  | none => none
                  | some (m, rest4) =>
                      if 56320 ≤ m ∧ m < 57344 then
                        (parseJStringBody fuel rest4).map
                          (fun p =>
                            (Char.ofNat (65536 + (n - 55296) * 1024 + (m - 56320))
                              :: p.1, p.2))
                      else none
              | _ => none
            else if 56320 ≤ n ∧ n < 57344 then none
            else (parseJStringBody fuel rest2).map
                (fun p => (Char.ofNat n :: p.1, p.2)) := rfl

theorem parse_uEscape_bmp (fuel n : Nat) (rest : List Char)
    (hn : n < 65536) (hs1 : ¬(55296 ≤ n ∧ n < 56320))
    (hs2 : ¬(56320 ≤ n ∧ n < 57344)) :
    parseJStringBody (fuel + 1) ('\\' :: 'u' :: (hex4 n ++ rest))
      = (parseJStringBody fuel rest).map (fun p => (Char.ofNat n :: p.1, p.2)) := by
  rw [parseJStringBody_unicode, parseHex4_hex4 n hn rest]
  simp only [hs1, hs2, if_false]

theorem parse_uEscape_surr (fuel n m : Nat) (rest : List Char)
    (hn : n < 65536) (hm : m < 65536)
    (h1 : 55296 ≤ n ∧ n < 56320) (h2 : 56320 ≤ m ∧ m < 57344) :
    parseJStringBody (fuel + 1)
        ('\\' :: 'u' :: (hex4 n ++ ('\\' :: 'u' :: (hex4 m ++ rest))))
      = (parseJStringBody fuel rest).map
          (fun p =>
            (Char.ofNat (65536 + (n - 55296) * 1024 + (m - 56320)) :: p.1, p.2)) := by
  rw [parseJStringBody_unicode, parseHex4_hex4 n hn]
  simp only [h1, if_true, parseHex4_hex4 m hm, h2, and_self]

/-- One escaped character is parsed back. -/
theorem parse_escChar (c : Char) (tail : List Char) (fuel : Nat) :
    parseJStringBody (fuel + 1) (jsonEscapeChar c ++ tail)
      = (parseJStringBody fuel tail).map (fun p => (c :: p.1, p.2)) := by
  by_cases h1 : c = '"'
  · subst h1
    rfl
  by_cases h2 : c = '\\'
  · subst h2
    rfl
  by_cases h3 : c = '\n'
  · subst h3
    rfl
  by_cases h4 : c = '\t'
  · subst h4
    rfl
  by_cases h5 : c = '\r'
  · subst h5
    rfl
  by_cases h6 : c.toNat = 8
  · have hc : c = Char.ofNat 8 := by rw [← Char.ofNat_toNat c, h6]
    subst hc
    rfl
  by_cases h7 : c.toNat = 12
  · have hc : c = Char.ofNat 12 := by rw [← Char.ofNat_toNat c, h7]
    subst hc
    rfl
  by_cases h8 : c.toNat < 32 ∨ 126 < c.toNat
  · have hesc : jsonEscapeChar c = uEscape c.toNat := by
      unfold jsonEscapeChar
      rw [if_neg h1, if_neg h2, if_neg h3, if_neg h4, if_neg h5, if_neg h6,
        if_neg h7, if_pos h8]
    rw [hesc]
    have hno1 : ¬(55296 ≤ c.toNat ∧ c.toNat < 56320) := by
      rcases char_valid_ranges c with h | h <;> omega
    have hno2 : ¬(56320 ≤ c.toNat ∧ c.toNat < 57344) := by
      rcases char_valid_ranges c with h | h <;> omega
    by_cases hbmp : c.toNat < 65536
    · have hu : uEscape c.toNat ++ tail = '\\' :: 'u' :: (hex4 c.toNat ++ tail) := by
        unfold uEscape
        rw [if_pos hbmp]
        simp [List.append_assoc]
      rw [hu, parse_uEscape_bmp fuel c.toNat tail hbmp hno1 hno2, Char.ofNat_toNat]
    · have hlt : c.toNat < 1114112 := by
        rcases char_valid_ranges c with h | h <;> omega
      have hu : uEscape c.toNat ++ tail
          = '\\' :: 'u' :: (hex4 (55296 + (c.toNat - 65536) / 1024)
            ++ ('\\' :: 'u' :: (hex4 (56320 + (c.toNat - 65536) % 1024) ++ tail))) := by
        unfold uEscape
        rw [if_neg hbmp]
        simp [List.append_assoc]
      have hhi : 55296 + (c.toNat - 65536) / 1024 < 65536 := by omega
      have hlo : 56320 + (c.toNat - 65536) % 1024 < 65536 := by omega
      have harith : 65536 + (55296 + (c.toNat - 65536) / 1024 - 55296) * 1024
          + (56320 + (c.toNat - 65536) % 1024 - 56320) = c.toNat := by omega
      rw [hu, parse_uEscape_surr fuel _ _ tail hhi hlo
          ⟨by omega, by omega⟩ ⟨by omega, by omega⟩, harith, Char.ofNat_toNat]
  · have hesc : jsonEscapeChar c = [c] := by
      unfold jsonEscapeChar
      rw [if_neg h1, if_neg h2, if_neg h3, if_neg h4, if_neg h5, if_neg h6,
        if_neg h7, if_neg h8]
    rw [hesc]
    show parseJStringBody (fuel + 1) (c :: tail) = _
    simp only [parseJStringBody]
    rw [if_neg h1, if_neg h2]

theorem uEscape_length (n : Nat) : 2 ≤ (uEscape n).length := by
  unfold uEscape
  split_ifs <;> simp [hex4]

theorem jsonEscapeChar_length (c : Char) : 1 ≤ (jsonEscapeChar c).length := by
  unfold jsonEscapeChar
  split_ifs
  all_goals first
    | simp
    | exact le_trans (by omega) (uEscape_length _)

theorem escList_length_ge : ∀ cs : List Char,
    cs.length ≤ (cs.foldr (fun c acc => jsonEscapeChar c ++ acc) []).length
  | [] => by simp
  | c :: cs => by
      rw [List.foldr_cons, List.length_append, List.length_cons]
      have h1 := jsonEscapeChar_length c
      have h2 := escList_length_ge cs
      omega

theorem parseJStringBody_esc : ∀ (cs rest : List Char) (fuel : Nat),
    cs.length + 1 ≤ fuel →
    parseJStringBody fuel
        (cs.foldr (fun c acc => jsonEscapeChar c ++ acc) [] ++ '"' :: rest)
      = some (cs, rest)
  | [], rest, fuel, hf => by
      cases fuel with
      | zero => omega
      | succ f => rfl
  | c :: cs, rest, fuel, hf => by
      cases fuel with
      | zero => omega
      | succ f =>
          have hassoc : (c :: cs).foldr (fun c acc => jsonEscapeChar c ++ acc) []
                ++ '"' :: rest
              = jsonEscapeChar c
                ++ (cs.foldr (fun c acc => jsonEscapeChar c ++ acc) [] ++ '"' :: rest) := by
            rw [List.foldr_cons, List.append_assoc]
          rw [hassoc, parse_escChar c _ f,
            parseJStringBody_esc cs rest f
              (by simp only [List.length_cons] at hf; omega)]
          rfl

theorem parseJString_shape (s : String) (rest : List Char) :
    parseJString ('"' :: (escString s ++ '"' :: rest)) = some (s, rest) := by
  show (parseJStringBody ((escString s ++ '"' :: rest).length + 1)
    (escString s ++ '"' :: rest)).map (fun p => (String.mk p.1, p.2)) = some (s, rest)
  have hfuel : s.data.length + 1 ≤ (escString s ++ '"' :: rest).length + 1 := by
    rw [List.length_append]
    have := escList_length_ge s.data
    unfold escString
    omega
  rw [show escString s = s.data.foldr (fun c acc => jsonEscapeChar c ++ acc) []
    from rfl] at hfuel ⊢
  rw [parseJStringBody_esc s.data rest _ hfuel]
  rfl

theorem jsonString_shape (s : String) (rest : List Char) :
    jsonString s ++ rest = '"' :: (escString s ++ '"' :: rest) := by
  unfold jsonString
  simp [List.append_assoc]

theorem parseJString_jsonString (s : String) (rest : List Char) :
    parseJString (jsonString s ++ rest) = some (s, rest) := by
  rw [jsonString_shape, parseJString_shape]

theorem parseOptString_opt (o : Option String) (rest : List Char) :
    parseOptString (jsonOptString o ++ rest) = some (o, rest) := by
  cases o with
  | none => rfl
  | some s =>
      show parseOptString (jsonString s ++ rest) = some (some s, rest)
      rw [jsonString_shape]
      show (parseJString ('"' :: (escString s ++ '"' :: rest))).map
        (fun p => (some p.1, p.2)) = some (some s, rest)
      rw [parseJString_shape]
      rfl

theorem parseEnvItems_succ (fuel : Nat) (input : List Char) :
    parseEnvItems (fuel + 1) input
      = match parseJString input with
        | none =>
            match input with
            | '}' :: rest => some ([], rest)
            | _ => none
        | some (k, rest1) =>
            match rest1 with
            | ':' :: rest2 =>
                match parseJString rest2 with
                | none => none
                | some (v, rest3) =>
                    match rest3 with
                    | ',' :: rest4 =>
                        (parseEnvItems fuel rest4).map
                          (fun p => ((k, v) :: p.1, p.2))
                    | '}' :: rest4 => some ([(k, v)], rest4)
                    | _ => none
            | _ => none := rfl

theorem parseEnvItems_ser : ∀ (l : List (String × String)) (rest : List Char)
    (fuel : Nat), l.length + 1 ≤ fuel →
    parseEnvItems fuel (jsonEnvItems l ++ '}' :: rest) = some (l, rest)
  | [], rest, fuel + 1, _ => rfl
  | [(k, v)], rest, fuel + 1, _ => by
      have hshape : jsonEnvItems [(k, v)] ++ '}' :: rest
          = jsonString k ++ (':' :: (jsonString v ++ '}' :: rest)) := by
        show (jsonString k ++ ':' :: jsonString v) ++ '}' :: rest = _
        simp [List.append_assoc]
      rw [hshape, parseEnvItems_succ]
      simp only [parseJString_jsonString]
  | (k, v) :: p :: tail, rest, fuel + 1, hf => by
      have hshape : jsonEnvItems ((k, v) :: p :: tail) ++ '}' :: rest
          = jsonString k ++ (':' :: (jsonString v
              ++ (',' :: (jsonEnvItems (p :: tail) ++ '}' :: rest)))) := by
        show (jsonString k ++ ':' :: jsonString v ++ ',' :: jsonEnvItems (p :: tail))
            ++ '}' :: rest = _
        simp [List.append_assoc]
      rw [hshape, parseEnvItems_succ]
      simp only [parseJString_jsonString]
      rw [parseEnvItems_ser (p :: tail) rest fuel
        (by simp only [List.length_cons] at hf ⊢; omega)]
      rfl

theorem jsonEnvItems_length_ge : ∀ l : List (String × String),
    l.length ≤ (jsonEnvItems l).length
  | [] => by simp [jsonEnvItems]
  | [(k, v)] => by simp [jsonEnvItems, jsonString]
  | (k, v) :: p :: tail => by
      have ih := jsonEnvItems_length_ge (p :: tail)
      show (p :: tail).length + 1
        ≤ ((jsonString k ++ ':' :: jsonString v ++ ',' :: jsonEnvItems (p :: tail))).length
      simp only [List.length_append, List.length_cons, List.length_nil, jsonString]
        at ih ⊢
      omega

theorem parseEnvelopes_ser (l : List (String × String)) (rest : List Char) :
    parseEnvelopes (jsonEnvelopes l ++ rest) = some (l, rest) := by
  have hshape : jsonEnvelopes l ++ rest = '{' :: (jsonEnvItems l ++ '}' :: rest) := by
    show ('{' :: (jsonEnvItems l ++ ['}'])) ++ rest = _
    simp [List.append_assoc]
  rw [hshape]
  show parseEnvItems ((jsonEnvItems l ++ '}' :: rest).length + 1)
      (jsonEnvItems l ++ '}' :: rest) = some (l, rest)
  exact parseEnvItems_ser l rest _
    (by
      have := jsonEnvItems_length_ge l
      simp only [List.length_append, List.length_cons]
      omega)

theorem parsePayload_serialize (p : Payload) :
    parsePayload (String.mk (serializePayload p)) = some p := by
  obtain ⟨sender, ct, iv, ts, env, sa⟩ := p
  cases sa with
  | none =>
      have hdata : serializePayload ⟨sender, ct, iv, ts, env, none⟩
          = ['{', '\"', 'f', 'r', 'o', 'm', '\"', ':']
            ++ (jsonString sender
            ++ ([',', '\"', 'c', 'i', 'p', 'h', 'e', 'r', 't', 'e', 'x', 't', '\"', ':']
            ++ (jsonOptString ct
            ++ ([',', '\"', 'i', 'v', '\"', ':']
            ++ (jsonOptString iv
            ++ ([',', '\"', 't', 'i', 'm', 'e', 's', 't', 'a', 'm', 'p', '\"', ':']
            ++ (jsonOptString ts
            ++ ([',', '\"', 'e', 'n', 'v', 'e', 'l', 'o', 'p', 'e', 's', '\"', ':']
            ++ (jsonEnvelopes env
            ++ (['}'])))))))))) := by
        unfold serializePayload
        simp [List.append_assoc]
      simp only [parsePayload, hdata, parseLit_append, parseJString_jsonString,
        parseOptString_opt, parseEnvelopes_ser]
      exact if_pos trivial
  | some s =>
      have hdata : serializePayload ⟨sender, ct, iv, ts, env, some s⟩
          = ['{', '\"', 'f', 'r', 'o', 'm', '\"', ':']
            ++ (jsonString sender
            ++ ([',', '\"', 'c', 'i', 'p', 'h', 'e', 'r', 't', 'e', 'x', 't', '\"', ':']
            ++ (jsonOptString ct
            ++ ([',', '\"', 'i', 'v', '\"', ':']
            ++ (jsonOptString iv
            ++ ([',', '\"', 't', 'i', 'm', 'e', 's', 't', 'a', 'm', 'p', '\"', ':']
            ++ (jsonOptString ts
            ++ ([',', '\"', 'e', 'n', 'v', 'e', 'l', 'o', 'p', 'e', 's', '\"', ':']
            ++ (jsonEnvelopes env
            ++ ([',', '\"', 's', 't', 'o', 'r', 'e', 'd', '_', 'a', 't', '\"', ':']
            ++ (jsonString s
            ++ (['}'])))))))))))) := by
        unfold serializePayload
        simp [List.append_assoc]
      simp only [parsePayload, hdata, parseLit_append, parseJString_jsonString,
        parseOptString_opt, parseEnvelopes_ser]
      rw [if_neg (fun h => by
        have hl := congrArg List.length h
        simp only [List.length_append, List.length_cons, List.length_nil] at hl
        omega)]
      exact if_pos trivial

theorem zipWith_xor_lt (pt ksl : List Nat) (hpt : ∀ a ∈ pt, a < 256)
    (hk : ∀ b ∈ ksl, b < 256) :
    ∀ x ∈ pt.zipWith (fun a b => a ^^^ b) ksl, x < 256 := by
  induction pt generalizing ksl with
  | nil => intro x hx; simp at hx
  | cons a as ih =>
      cases ksl with
      | nil => intro x hx; simp at hx
      | cons k ktail =>
          intro x hx
          simp only [List.zipWith_cons_cons, List.mem_cons] at hx
          rcases hx with rfl | hx
          · exact xor_byte_lt a k (hpt a (List.mem_cons_self _ _))
              (hk k (List.mem_cons_self _ _))
          · exact ih ktail (fun y hy => hpt y (List.mem_cons_of_mem _ hy))
              (fun y hy => hk y (List.mem_cons_of_mem _ hy)) x hx

theorem strBytes_serial_lt (p : Payload) :
    ∀ b ∈ strBytes (String.mk (serializePayload p)), b < 256 := by
  intro b hb
  simp only [strBytes, List.mem_map] at hb
  obtain ⟨c, hc, rfl⟩ := hb
  have := serializePayload_ascii p c hc
  omega

/-- C6: the audit-log append stores `{nonce, ciphertext}` as base64 text,
the ciphertext being the AEAD encryption (no associated data) of the
canonical serialization of the payload extended with `stored_at`; the
decryption utility applied to that entry with the correct key returns
exactly the payload plus `stored_at`, and any decryption attempt whose
recomputed authentication tag differs from the stored tag (wrong key or
tampered ciphertext) returns nothing rather than corrupted plaintext. -/
theorem C6_audit_log_roundtrip (ks : KS) (tagf : TAG) (key : List Nat)
    (env : Env) (logs : List LogEntry) (p : Payload)
    (hnonce_len : env.nonce.length = 12)
    (hnonce_lt : ∀ b ∈ env.nonce, b < 256)
    (hks_len : ∀ k n len, (ks k n len).length = len)
    (hks_lt : ∀ k n len, ∀ b ∈ ks k n len, b < 256)
    (htag_len : ∀ k n ct, (tagf k n ct).length = 16)
    (htag_lt : ∀ k n ct, ∀ b ∈ tagf k n ct, b < 256) :
    store_encrypted_log ks tagf key env logs p
        = logs ++ [⟨b64encode env.nonce,
            b64encode (aeadEncrypt ks tagf key env.nonce
              (strBytes (String.mk (serializePayload
                (entry_payload env.now_str p)))))⟩]
      ∧ env.nonce.length = 12
      ∧ b64decode (b64encode env.nonce) = some env.nonce
      ∧ decrypt_entry ks tagf key
          ⟨b64encode env.nonce,
           b64encode (aeadEncrypt ks tagf key env.nonce
             (strBytes (String.mk (serializePayload
               (entry_payload env.now_str p)))))⟩
          = some (entry_payload env.now_str p)
      ∧ (entry_payload env.now_str p).«from» = p.«from»
      ∧ (entry_payload env.now_str p).ciphertext = p.ciphertext
      ∧ (entry_payload env.now_str p).iv = p.iv
      ∧ (entry_payload env.now_str p).timestamp = p.timestamp
      ∧ (entry_payload env.now_str p).envelopes = p.envelopes
      ∧ (entry_payload env.now_str p).stored_at
          = some (p.stored_at.getD env.now_str)
      ∧ (∀ key2 data, (∀ b ∈ data, b < 256) →
           tagf key2 env.nonce (data.take (data.length - 16))
             ≠ data.drop (data.length - 16) →
           decrypt_entry ks tagf key2
             ⟨b64encode env.nonce, b64encode data⟩ = none) := by
  refine ⟨rfl, hnonce_len, b64decode_b64encode _ hnonce_lt, ?_,
    rfl, rfl, rfl, rfl, rfl, rfl, ?_⟩
  · have hserial := strBytes_serial_lt (entry_payload env.now_str p)
    have hct_lt : ∀ b ∈ aeadEncrypt ks tagf key env.nonce
        (strBytes (String.mk (serializePayload (entry_payload env.now_str p)))),
        b < 256 := by
      intro b hb
      rcases List.mem_append.mp hb with hb | hb
      · exact zipWith_xor_lt _ _ hserial (hks_lt _ _ _) b hb
      · exact htag_lt _ _ _ b hb
    have h1 : b64decode (b64encode env.nonce) = some env.nonce :=
      b64decode_b64encode _ hnonce_lt
    have h2 : b64decode (b64encode (aeadEncrypt ks tagf key env.nonce
        (strBytes (String.mk (serializePayload (entry_payload env.now_str p))))))
        = some (aeadEncrypt ks tagf key env.nonce
            (strBytes (String.mk (serializePayload (entry_payload env.now_str p))))) :=
      b64decode_b64encode _ hct_lt
    have h3 : aeadDecrypt ks tagf key env.nonce
        (aeadEncrypt ks tagf key env.nonce
          (strBytes (String.mk (serializePayload (entry_payload env.now_str p)))))
        = some (strBytes (String.mk (serializePayload (entry_payload env.now_str p)))) :=
      aead_roundtrip ks tagf key env.nonce _ (hks_len _ _ _) (htag_len _ _ _)
    have h4 : parsePayload (bytesStr (strBytes (String.mk (serializePayload
        (entry_payload env.now_str p)))))
        = some (entry_payload env.now_str p) := by
      rw [bytesStr_strBytes]
      exact parsePayload_serialize (entry_payload env.now_str p)
    simp only [decrypt_entry, h1, h2, h3, h4]
  · intro key2 data hdata_lt htagne
    have h1 : b64decode (b64encode env.nonce) = some env.nonce :=
      b64decode_b64encode _ hnonce_lt
    have h2 : b64decode (b64encode data) = some data :=
      b64decode_b64encode _ hdata_lt
    have h3 : aeadDecrypt ks tagf key2 env.nonce data = none := by
      cases hd : aeadDecrypt ks tagf key2 env.nonce data with
      | none => rfl
      | some pt =>
          exact absurd
            (aeadDecrypt_fails_closed ks tagf key2 env.nonce data pt hd) htagne
    simp only [decrypt_entry, h1, h2, h3]

theorem foldl_mod_lt (i : Nat) (l : List Nat) (a : Nat) (ha : a < 256) :
    l.foldl (fun a b => (a + b * (i + 3)) % 256) a < 256 := by
  induction l generalizing a with
  | nil => exact ha
  | cons x xs ih => exact ih _ (Nat.mod_lt _ (by omega))

theorem tagDemo_lt (k n ct : List Nat) : ∀ b ∈ tagDemo k n ct, b < 256 := by
  intro b hb
  simp only [tagDemo, List.mem_map, List.mem_range] at hb
  obtain ⟨i, hi, rfl⟩ := hb
  exact foldl_mod_lt i _ i (by omega)

/-- Witness for C6 at a concrete keystream, tag function, key,
environment and payload: the stored entry decrypts back to the payload
extended with `stored_at`. -/
theorem C6_witness :
    decrypt_entry ksZero tagDemo (List.replicate 32 9)
        ⟨b64encode envA.nonce,
         b64encode (aeadEncrypt ksZero tagDemo (List.replicate 32 9) envA.nonce
           (strBytes (String.mk (serializePayload
             (entry_payload envA.now_str
               ⟨"alice", some "c1", some "i1", some "t1",
                [("Bob", "e1"), ("alice", "e2")], none⟩)))))⟩
      = some (entry_payload envA.now_str
          ⟨"alice", some "c1", some "i1", some "t1",
           [("Bob", "e1"), ("alice", "e2")], none⟩) :=
  (C6_audit_log_roundtrip ksZero tagDemo (List.replicate 32 9) envA []
    ⟨"alice", some "c1", some "i1", some "t1",
     [("Bob", "e1"), ("alice", "e2")], none⟩
    (by decide) (by decide)
    (fun _ _ len => List.length_replicate len 0)
    (fun _ _ len b hb => by rw [List.eq_of_mem_replicate hb]; decide)
    (fun _ _ _ => by simp [tagDemo])
    tagDemo_lt).2.2.2.1

end SecureChat
